import Mathlib

/-!
# easychars: validators, the scalar-to-UTF-8 encoder, detection and conversion

A shallow embedding of `multi_byte.go`, `unicode.go` and `charset.go`.

* A Go `byte` is a `Nat`; every range test of the source is kept, so a value
  above `0xFF` is rejected exactly where the source's upper bound rejects it.
* A `for _, b := range content` loop with a local state variable is a
  recursion over the list that carries the state; `return false` inside the
  loop ends the recursion with `false`.
* A Go `rune` (`int32`) is an `Int`; `byte(x)` keeps the low eight bits.
* An index expression that would be out of range (a Go run-time panic) is
  `none`.
-/

namespace Easychars

/-! ## multi_byte.go -/

/-- Loop of `isValidGBK`: `nByte` is the loop-carried state, the list is the
part of `content` not yet visited.  A `switch` with no matching case falls
through to the next iteration. -/
def isValidGBKLoop : Nat → List Nat → Bool
  | nByte, [] => nByte == 1
  | nByte, b :: rest =>
    if nByte = 1 then
      if b ≤ 0x7F then isValidGBKLoop nByte rest
      else if b ≥ 0x81 ∧ b ≤ 0xFE then isValidGBKLoop 2 rest
      else false
    else if nByte = 2 then
      if b < 0x40 ∨ b > 0xFE ∨ b = 0x7F then false
      else isValidGBKLoop 1 rest
    else isValidGBKLoop nByte rest

/-- Source function `isValidGBK` of `multi_byte.go`. -/
def isValidGBK (content : List Nat) : Bool :=
  isValidGBKLoop 1 content

/-- Loop of `isValidGB18030`, with `nByte` the loop-carried state. -/
def isValidGB18030Loop : Nat → List Nat → Bool
  | nByte, [] => nByte == 1
  | nByte, b :: rest =>
    if nByte = 1 then
      if b ≤ 0x7F then isValidGB18030Loop nByte rest
      else if b ≥ 0x81 ∧ b ≤ 0xFE then isValidGB18030Loop 2 rest
      else false
    else if nByte = 2 then
      if b ≥ 0x40 ∧ b ≤ 0xFE ∧ b ≠ 0x7F then isValidGB18030Loop 1 rest
      else if b ≥ 0x30 ∧ b ≤ 0x39 then isValidGB18030Loop 3 rest
      else false
    else if nByte = 3 then
      if b ≥ 0x81 ∧ b ≤ 0xFE then isValidGB18030Loop 4 rest
      else false
    else if nByte = 4 then
      if b ≥ 0x30 ∧ b ≤ 0x39 then isValidGB18030Loop 1 rest
      else false
    else isValidGB18030Loop nByte rest

/-- Source function `isValidGB18030` of `multi_byte.go`. -/
def isValidGB18030 (content : List Nat) : Bool :=
  isValidGB18030Loop 1 content

/-- Loop of `isValidBig5`, with `nByte` the loop-carried state. -/
def isValidBig5Loop : Nat → List Nat → Bool
  | nByte, [] => nByte == 1
  | nByte, b :: rest =>
    if nByte = 1 then
      if b ≤ 0x7F then isValidBig5Loop nByte rest
      else if b ≥ 0x81 ∧ b ≤ 0xFE then isValidBig5Loop 2 rest
      else false
    else if nByte = 2 then
      if ¬ (b ≥ 0x40 ∧ b ≤ 0x7E ∨ b ≥ 0xA1 ∧ b ≤ 0xFE) then false
      else isValidBig5Loop 1 rest
    else isValidBig5Loop nByte rest

/-- Source function `isValidBig5` of `multi_byte.go`. -/
def isValidBig5 (content : List Nat) : Bool :=
  isValidBig5Loop 1 content

/-! ### Character grammars, as the specification words them -/

/-- A GBK character: one byte `≤ 0x7F`, or a lead byte in `[0x81, 0xFE]`
followed by a trail byte in `[0x40, 0xFE]` other than `0x7F`. -/
def isGBKChar : List Nat → Bool
  | [b] => decide (b ≤ 0x7F)
  | [l, t] => decide (0x81 ≤ l ∧ l ≤ 0xFE ∧ 0x40 ≤ t ∧ t ≤ 0xFE ∧ t ≠ 0x7F)
  | _ => false

/-- A GB18030 character: one byte `≤ 0x7F`, a two-byte GBK character, or the
four bytes lead, digit, lead-range byte, digit. -/
def isGB18030Char : List Nat → Bool
  | [b] => decide (b ≤ 0x7F)
  | [l, t] => decide (0x81 ≤ l ∧ l ≤ 0xFE ∧ 0x40 ≤ t ∧ t ≤ 0xFE ∧ t ≠ 0x7F)
  | [l, d, m, e] =>
    decide (0x81 ≤ l ∧ l ≤ 0xFE ∧ 0x30 ≤ d ∧ d ≤ 0x39 ∧
      0x81 ≤ m ∧ m ≤ 0xFE ∧ 0x30 ≤ e ∧ e ≤ 0x39)
  | _ => false

/-- A Big5 character: one byte `≤ 0x7F`, or a lead byte in `[0x81, 0xFE]`
followed by a trail byte in `[0x40, 0x7E]` or `[0xA1, 0xFE]`. -/
def isBig5Char : List Nat → Bool
  | [b] => decide (b ≤ 0x7F)
  | [l, t] =>
    decide (0x81 ≤ l ∧ l ≤ 0xFE ∧ (0x40 ≤ t ∧ t ≤ 0x7E ∨ 0xA1 ≤ t ∧ t ≤ 0xFE))
  | _ => false

/-- A byte sequence is a concatenation of characters of the grammar `isChar`. -/
def IsConcatOf (isChar : List Nat → Bool) (content : List Nat) : Prop :=
  ∃ chars : List (List Nat), (∀ c ∈ chars, isChar c = true) ∧ chars.flatten = content

/-- A byte sequence stops inside a multi-byte GB18030 character: it is the
first 1, 2 or 3 bytes of one. -/
def isGB18030Truncated : List Nat → Bool
  | [l] => decide (0x81 ≤ l ∧ l ≤ 0xFE)
  | [l, d] => decide (0x81 ≤ l ∧ l ≤ 0xFE ∧ 0x30 ≤ d ∧ d ≤ 0x39)
  | [l, d, m] =>
    decide (0x81 ≤ l ∧ l ≤ 0xFE ∧ 0x30 ≤ d ∧ d ≤ 0x39 ∧ 0x81 ≤ m ∧ m ≤ 0xFE)
  | _ => false

/-- No lead byte is followed by a byte in `[0x30, 0x39]`.  The scan goes by
characters: a byte `≤ 0x7F` is a character of its own, any other byte is a
lead byte and is passed over together with the byte after it. -/
def noLeadThenDigit : List Nat → Bool
  | [] => true
  | [_] => true
  | a :: b :: rest =>
    if a ≤ 0x7F then noLeadThenDigit (b :: rest)
    else if 0x30 ≤ b ∧ b ≤ 0x39 then false
    else noLeadThenDigit rest

/-! ## unicode.go -/

/-- The 16-bit code unit `uint16(hi)<<8 ^ uint16(lo)`; the shift is taken in
`uint16`, so it wraps at `2^16`. -/
def codeUnit (hi lo : Nat) : Nat :=
  (((hi % 65536) <<< 8) % 65536) ^^^ (lo % 65536)

/-- Loop `for i := 0; i < len(content); i += 2` of `isValidUTF16BE`.  The list
is `content[i:]` and the flag is `is_surrogate_pairs`.  With no byte left the
loop ends; with one byte left `content[i+1]` is out of range (`none`). -/
def isValidUTF16BELoop : Bool → List Nat → Option Bool
  | is_surrogate_pairs, [] => some (!is_surrogate_pairs)
  | _, [_] => none
  | is_surrogate_pairs, hi :: lo :: rest =>
    let c := codeUnit hi lo
    if is_surrogate_pairs = true then
      if c < 0xDC00 ∨ c > 0xDFFF then some false
      else isValidUTF16BELoop false rest
    else
      if c ≥ 0xD800 ∧ c ≤ 0xFFFF then isValidUTF16BELoop true rest
      else isValidUTF16BELoop is_surrogate_pairs rest

/-- Source function `isValidUTF16BE` of `unicode.go`. -/
def isValidUTF16BE (content : List Nat) : Option Bool :=
  if content.length = 0 then some false
  else if content.length &&& 0x1 ≠ 0 then some false
  else
    match content[0]?, content[1]? with
    | some b0, some b1 =>
      let BOM := codeUnit b0 b1
      if BOM = 0xFEFF then some true
      else isValidUTF16BELoop false content
    | _, _ => none

/-- Loop of `isValidUTF16LE`: as the big-endian loop, with the code unit
assembled as `uint16(content[i+1])<<8 ^ uint16(content[i])`. -/
def isValidUTF16LELoop : Bool → List Nat → Option Bool
  | is_surrogate_pairs, [] => some (!is_surrogate_pairs)
  | _, [_] => none
  | is_surrogate_pairs, lo :: hi :: rest =>
    let c := codeUnit hi lo
    if is_surrogate_pairs = true then
      if c < 0xDC00 ∨ c > 0xDFFF then some false
      else isValidUTF16LELoop false rest
    else
      if c ≥ 0xD800 ∧ c ≤ 0xFFFF then isValidUTF16LELoop true rest
      else isValidUTF16LELoop is_surrogate_pairs rest

/-- Source function `isValidUTF16LE` of `unicode.go`. -/
def isValidUTF16LE (content : List Nat) : Option Bool :=
  if content.length = 0 then some false
  else if content.length &&& 0x1 ≠ 0 then some false
  else
    match content[0]?, content[1]? with
    | some b0, some b1 =>
      let BOM := codeUnit b1 b0
      if BOM = 0xFEFF then some true
      else isValidUTF16LELoop false content
    | _, _ => none

/-- Source function `isValidUTF16` of `unicode.go`: the results are
`(isUTF16, BE, LE)`. -/
def isValidUTF16 (content : List Nat) : Option (Bool × Bool × Bool) := do
  let BE ← isValidUTF16BE content
  let LE ← isValidUTF16LE content
  pure (BE || LE, BE, LE)

/-- Go conversion `byte(x)` of a rune: the low eight bits. -/
def toByte (x : Int) : Nat :=
  (x % 256).toNat

/-- The rune constant `1 << k`. -/
def shl1 (k : Nat) : Int :=
  ((1 <<< k : Nat) : Int)

/-- Source function `unicodeRuneToUtf8` of `unicode.go`.  Each `for k` loop is
a fold over `k = 0, 1, ...` whose state is the bytes `c1, c2, ...`; Go's `%` on
a rune truncates (`Int.tmod`) and `>>` is the arithmetic shift. -/
def unicodeRuneToUtf8 (unicode : Int) : List Nat :=
  if unicode ≤ 0x7F then
    [toByte unicode]
  else if unicode ≤ 0x7FF then
    let r := (List.range 11).foldl
      (fun (c : Nat × Nat) (k : Nat) =>
        if k < 6 then
          (c.1, c.2 ||| toByte (Int.land (Int.tmod unicode 64) (shl1 k)))
        else
          (c.1 ||| toByte (Int.land (unicode >>> (6 : Nat)) (shl1 (k - 6))), c.2))
      (192, 128)
    [r.1, r.2]
  else if unicode ≤ 0xFFFF then
    let r := (List.range 16).foldl
      (fun (c : Nat × Nat × Nat) (k : Nat) =>
        if k < 6 then
          (c.1, c.2.1, c.2.2 ||| toByte (Int.land (Int.tmod unicode 64) (shl1 k)))
        else if k < 12 then
          (c.1, c.2.1 ||| toByte (Int.land (unicode >>> (6 : Nat)) (shl1 (k - 6))), c.2.2)
        else
          (c.1 ||| toByte (Int.land (unicode >>> (12 : Nat)) (shl1 (k - 12))), c.2.1, c.2.2))
      (224, 128, 128)
    [r.1, r.2.1, r.2.2]
  else if unicode ≤ 0x10FFFF then
    let r := (List.range 21).foldl
      (fun (c : Nat × Nat × Nat × Nat) (k : Nat) =>
        if k < 6 then
          (c.1, c.2.1, c.2.2.1,
            c.2.2.2 ||| toByte (Int.land (Int.tmod unicode 64) (shl1 k)))
        else if k < 12 then
          (c.1, c.2.1,
            c.2.2.1 ||| toByte (Int.land (unicode >>> (6 : Nat)) (shl1 (k - 6))), c.2.2.2)
        else if k < 18 then
          (c.1, c.2.1 ||| toByte (Int.land (unicode >>> (12 : Nat)) (shl1 (k - 12))),
            c.2.2.1, c.2.2.2)
        else
          (c.1 ||| toByte (Int.land (unicode >>> (18 : Nat)) (shl1 (k - 18))), c.2.1,
            c.2.2.1, c.2.2.2))
      (240, 128, 128, 128)
    [r.1, r.2.1, r.2.2.1, r.2.2.2]
  else
    []

/-! ### UTF-16 as the specification words it -/

/-- Big-endian code units of a byte sequence, `(hi<<8)|lo` per byte pair. -/
def specUnitsBE : List Nat → List Nat
  | hi :: lo :: rest => (hi * 256 + lo) :: specUnitsBE rest
  | _ => []

/-- Little-endian code units of a byte sequence. -/
def specUnitsLE : List Nat → List Nat
  | lo :: hi :: rest => (hi * 256 + lo) :: specUnitsLE rest
  | _ => []

/-- The scan of the specification over code units, with the flag
expecting-low-surrogate: when set, the unit must be in `[0xDC00, 0xDFFF]` and
the flag is cleared; when clear, it is set only on a high surrogate in
`[0xD800, 0xDBFF]`; accept iff the flag is clear at the end. -/
def specUTF16Scan : Bool → List Nat → Bool
  | expecting, [] => !expecting
  | true, c :: rest =>
    if 0xDC00 ≤ c ∧ c ≤ 0xDFFF then specUTF16Scan false rest else false
  | false, c :: rest =>
    if 0xD800 ≤ c ∧ c ≤ 0xDBFF then specUTF16Scan true rest
    else specUTF16Scan false rest

/-- UTF-16 code units of a Unicode scalar value: a BMP scalar is one unit, a
supplementary scalar is a high surrogate followed by a low surrogate. -/
def utf16Units (s : Nat) : List Nat :=
  if s < 0x10000 then [s]
  else [0xD800 + (s - 0x10000) / 0x400, 0xDC00 + (s - 0x10000) % 0x400]

/-- UTF-16BE encoding of a sequence of scalar values. -/
def encodeUTF16BE (scalars : List Nat) : List Nat :=
  ((scalars.map utf16Units).flatten.map (fun u => [u / 256, u % 256])).flatten

/-- UTF-16LE encoding of a sequence of scalar values. -/
def encodeUTF16LE (scalars : List Nat) : List Nat :=
  ((scalars.map utf16Units).flatten.map (fun u => [u % 256, u / 256])).flatten

/-- Well-formed UTF-16, on code units: a unit in `[0xD800, 0xDBFF]` is followed
by a unit in `[0xDC00, 0xDFFF]`, and a unit in `[0xDC00, 0xDFFF]` occurs only
there. -/
def wellFormedUTF16 : List Nat → Bool
  | [] => true
  | [c] => decide (¬ (0xD800 ≤ c ∧ c ≤ 0xDFFF))
  | c :: d :: rest =>
    if 0xD800 ≤ c ∧ c ≤ 0xDBFF then
      decide (0xDC00 ≤ d ∧ d ≤ 0xDFFF) && wellFormedUTF16 rest
    else if 0xDC00 ≤ c ∧ c ≤ 0xDFFF then false
    else wellFormedUTF16 (d :: rest)

/-- A byte sequence with the two bytes of every aligned pair swapped; a last
byte without a partner stays. -/
def swapPairs : List Nat → List Nat
  | a :: b :: rest => b :: a :: swapPairs rest
  | rest => rest

/-! ### UTF-8 as the specification words it -/

/-- The standard UTF-8 bit layout of a value `s ≤ 0x10FFFF`, by range:
`0xxxxxxx`; `110xxxxx 10xxxxxx`; `1110xxxx 10xxxxxx 10xxxxxx`;
`11110xxx 10xxxxxx 10xxxxxx 10xxxxxx`. -/
def utf8Layout (s : Nat) : List Nat :=
  if s ≤ 0x7F then [s]
  else if s ≤ 0x7FF then [0xC0 ||| (s >>> 6), 0x80 ||| (s &&& 0x3F)]
  else if s ≤ 0xFFFF then
    [0xE0 ||| (s >>> 12), 0x80 ||| ((s >>> 6) &&& 0x3F), 0x80 ||| (s &&& 0x3F)]
  else
    [0xF0 ||| (s >>> 18), 0x80 ||| ((s >>> 12) &&& 0x3F),
      0x80 ||| ((s >>> 6) &&& 0x3F), 0x80 ||| (s &&& 0x3F)]

/-- A UTF-8 continuation byte `10xxxxxx`. -/
def isUtf8Cont (b : Nat) : Bool :=
  decide (0x80 ≤ b ∧ b ≤ 0xBF)

/-- A standard (strict) UTF-8 decoder for the first character of a byte
sequence: the decoded scalar value and the number of bytes consumed, or `none`
for an ill-formed sequence (bad lead or continuation byte, truncated input,
overlong form, surrogate, or value above `0x10FFFF`). -/
def stdUtf8Decode : List Nat → Option (Nat × Nat)
  | [] => none
  | b0 :: rest =>
    if b0 < 0x80 then some (b0, 1)
    else if 0xC2 ≤ b0 ∧ b0 ≤ 0xDF then
      match rest with
      | b1 :: _ =>
        if isUtf8Cont b1 = true then some ((b0 % 32) * 64 + b1 % 64, 2) else none
      | _ => none
    else if 0xE0 ≤ b0 ∧ b0 ≤ 0xEF then
      match rest with
      | b1 :: b2 :: _ =>
        let v := (b0 % 16) * 4096 + (b1 % 64) * 64 + b2 % 64
        if isUtf8Cont b1 = true ∧ isUtf8Cont b2 = true ∧ 0x800 ≤ v ∧
            ¬ (0xD800 ≤ v ∧ v ≤ 0xDFFF) then some (v, 3)
        else none
      | _ => none
    else if 0xF0 ≤ b0 ∧ b0 ≤ 0xF4 then
      match rest with
      | b1 :: b2 :: b3 :: _ =>
        let v := (b0 % 8) * 262144 + (b1 % 64) * 4096 + (b2 % 64) * 64 + b3 % 64
        if isUtf8Cont b1 = true ∧ isUtf8Cont b2 = true ∧ isUtf8Cont b3 = true ∧
            0x10000 ≤ v ∧ v ≤ 0x10FFFF then some (v, 4)
        else none
      | _ => none
    else none

/-! ## charset.go

The statistical detector (`chardet`), the two charset registries (`htmlindex`,
`ianaindex`), the UTF-32 encodings and the `strings` functions are external
to the package; they are the fields of an environment `Env`.  A nil slice is
the empty list, a nil error or nil interface value is `none`, and a run-time
panic (index out of range, nil dereference) is the result `none` of a
function that returns an `Option`. -/

/-- Go `error` values: the four errors declared in `charset.go`, and an error
of an external library with its message. -/
inductive Err where
  | errInvalidName
  | errUnknown
  | errUnsupported
  | errWrongDecoder
  | external (msg : String)
  deriving DecidableEq

/-- A `Decoder` (a `transform.Transformer`), seen through the one use the
package makes of it, `io.ReadAll(transform.NewReader(bytes.NewReader(content), d))`:
the bytes read, and the error that ended the read (`none` at a clean end). -/
abbrev Decoder := List Nat → List Nat × Option Err

/-- The decoder `encoding.Nop.NewDecoder()`: its output is its input. -/
def nopDecoder : Decoder := fun content => (content, none)

/-- One candidate of the external detector (`chardet.Result`). -/
structure Candidate where
  Charset : String
  Language : String
  Confidence : Int

/-- Source type `Result` of `charset.go`. -/
structure Result where
  Charset : String
  Language : String
  Confidence : Int
  Decoder : Decoder
  Convertible : Bool

/-- The external collaborators of `charset.go`, over a type `Enc` of encoding
handles (`encoding.Encoding`); a registry lookup returns its Go pair
`(e, err)`. -/
structure Env (Enc : Type) where
  detectAll : List Nat → List Candidate × Option Err
  htmlGet : String → Option Enc × Option Err
  ianaEncoding : String → Option Enc × Option Err
  ianaName : Enc → String × Option Err
  htmlName : Enc → String × Option Err
  utf32LE : Enc
  utf32BE : Enc
  newDecoder : Enc → Decoder
  toLower : String → String
  trimSpace : String → String

/-- Source function `ToUtf8WithDecoder` of `charset.go`. -/
def ToUtf8WithDecoder (content : List Nat) (d : Decoder) : List Nat × Option Err :=
  let r := d content
  if r.2 ≠ none then ([], some Err.errWrongDecoder)
  else (r.1, none)

/-- Source function `ToUtf8WithEncoding` of `charset.go`. -/
def ToUtf8WithEncoding {Enc : Type} (env : Env Enc) (content : List Nat) (e : Enc) :
    List Nat × Option Err :=
  ToUtf8WithDecoder content (env.newDecoder e)

/-- The test `err != nil || e == nil` on a registry answer. -/
def lookupMissed {Enc : Type} (r : Option Enc × Option Err) : Bool :=
  r.2.isSome || r.1.isNone

/-- The two registry probes at the end of `GetEncodingFromCharsetName`. -/
def lookupRegistries {Enc : Type} (env : Env Enc) (name : String) :
    Option Enc × Option Err :=
  let r := env.htmlGet name
  let r := if lookupMissed r = true then env.ianaEncoding name else r
  if lookupMissed r = true then (r.1, some Err.errInvalidName) else r

/-- Source function `GetEncodingFromCharsetName` of `charset.go`; the result is
the Go pair `(e, err)`. -/
def GetEncodingFromCharsetName {Enc : Type} (env : Env Enc) (name : String) :
    Option Enc × Option Err :=
  let name := env.trimSpace name
  let name := env.toLower name
  if name = "gb-18030" ∨ name = "gb_18030" ∨ name = "gb 18030" then
    lookupRegistries env "gb18030"
  else if name = "utf-32-le" ∨ name = "utf_32_le" ∨ name = "utf-32_le" ∨
      name = "utf_32-le" ∨ name = "utf32le" ∨ name = "utf-32le" ∨ name = "utf32-le" ∨
      name = "utf_32le" ∨ name = "utf32_le" then
    (some env.utf32LE, none)
  else if name = "utf-32-be" ∨ name = "utf_32_be" ∨ name = "utf-32_be" ∨
      name = "utf_32-be" ∨ name = "utf32be" ∨ name = "utf-32be" ∨ name = "utf32-be" ∨
      name = "utf_32be" ∨ name = "utf32_be" then
    (some env.utf32BE, none)
  else
    lookupRegistries env name

/-- Source function `GetDecoderFromCharsetName` of `charset.go`.  It returns
`(nil, err)`, here `.error err`, or `(encod.NewDecoder(), nil)`, here `.ok`;
`NewDecoder` called on a nil encoding would be a panic. -/
def GetDecoderFromCharsetName {Enc : Type} (env : Env Enc) (charsetName : String) :
    Option (Except Err Decoder) :=
  match GetEncodingFromCharsetName env charsetName with
  | (_, some err) => some (.error err)
  | (some encod, none) => some (.ok (env.newDecoder encod))
  | (none, none) => none

/-- Source function `ToUtf8WithCharsetName` of `charset.go`. -/
def ToUtf8WithCharsetName {Enc : Type} (env : Env Enc) (content : List Nat)
    (charsetName : String) : Option (List Nat × Option Err) :=
  match GetDecoderFromCharsetName env charsetName with
  | none => none
  | some (.error err) => some (content, some err)
  | some (.ok decoder) => some (ToUtf8WithDecoder content decoder)

/-- Loop `for _, res := range ress` of `DetectAll`; the second argument is the
slice `results` built so far. -/
def DetectAllLoop {Enc : Type} (env : Env Enc) :
    List Candidate → List Result → Option (List Result)
  | [], results => some results
  | res :: rest, results =>
    match GetDecoderFromCharsetName env res.Charset with
    | none => none
    | some (.ok decoder) =>
      DetectAllLoop env rest
        (results ++ [⟨res.Charset, res.Language, res.Confidence, decoder, true⟩])
    | some (.error _) =>
      DetectAllLoop env rest
        (results ++ [⟨res.Charset, res.Language, res.Confidence, nopDecoder, false⟩])

/-- Source function `DetectAll` of `charset.go`. -/
def DetectAll {Enc : Type} (env : Env Enc) (content : List Nat) :
    Option (List Result × Option Err) :=
  let r := env.detectAll content
  match DetectAllLoop env r.1 [] with
  | none => none
  | some results => some (results, r.2)

/-- Source function `DetectEncoding` of `charset.go`.  The statement
`if res, err := DetectAll(content); err == nil` declares variables `res` and
`err` of its own, so the named result `err` keeps its zero value. -/
def DetectEncoding {Enc : Type} (env : Env Enc) (content : List Nat) :
    Option (Option Result × Option Err) :=
  match DetectAll env content with
  | none => none
  | some (res, err) =>
    if err = none then
      match res with
      | r0 :: _ => some (some r0, none)
      | [] => none
    else some (none, none)

/-- Source function `DetectAndConvertToUtf8` of `charset.go`; the result is
`(convertedContent, res, err)`. -/
def DetectAndConvertToUtf8 {Enc : Type} (env : Env Enc) (content : List Nat) :
    Option (List Nat × Option Result × Option Err) :=
  match DetectEncoding env content with
  | none => none
  | some (res, err) =>
    if err ≠ none then some (content, res, err)
    else
      match res with
      | none => none
      | some res =>
        if res.Convertible = false then some (content, some res, err)
        else
          let charsetLower := env.toLower res.Charset
          if charsetLower = "" ∨ charsetLower = "unknown" then
            some (content, some res, err)
          else if charsetLower = "utf-8" ∨ charsetLower = "utf8" then
            some (content, some res, err)
          else
            let res :=
              if charsetLower = "gb18030" ∨ charsetLower = "gb-18030" ∨
                  charsetLower = "gb 18030" ∨ charsetLower = "gbk" ∨
                  charsetLower = "gb2312" then
                if isValidGBK content = false then { res with Confidence := 20 }
                else res
              else res
            let r := ToUtf8WithDecoder content res.Decoder
            some (r.1, some res, r.2)

/-- The method `Error()` of an error value: its message. -/
def Err.Error : Err → String
  | .errInvalidName => "easychars: invalid encoding name"
  | .errUnknown => "easychars: unknown Encoding"
  | .errUnsupported => "easychars: this encoding is not supported"
  | .errWrongDecoder => "easychars: wrong decoder"
  | .external msg => msg

/-- `strings.Contains` of the Go standard library. -/
def stringsContains (s substr : String) : Bool :=
  decide (List.IsInfix substr.data s.data)

/-- Source function `getCharsetNameFromEncoding` of `charset.go`; the result
is the Go pair `(name, err)`. -/
def getCharsetNameFromEncoding {Enc : Type} (env : Env Enc) (e : Enc) :
    String × Option Err :=
  let r := env.ianaName e
  let r := if r.2 ≠ none then env.htmlName e else r
  match r.2 with
  | some err =>
    if stringsContains err.Error "not supported" = true then
      (r.1, some Err.errUnsupported)
    else (r.1, some Err.errUnknown)
  | none => r

/-- `utf8.Valid` of the Go standard library, which `IsValidUTF8` returns:
the sequence is a concatenation of well-formed UTF-8 characters. -/
def IsValidUTF8 : List Nat → Bool
  | [] => true
  | b0 :: rest =>
    if b0 < 0x80 then IsValidUTF8 rest
    else if 0xC2 ≤ b0 ∧ b0 ≤ 0xDF then
      match rest with
      | b1 :: r => (stdUtf8Decode [b0, b1]).isSome && IsValidUTF8 r
      | _ => false
    else if 0xE0 ≤ b0 ∧ b0 ≤ 0xEF then
      match rest with
      | b1 :: b2 :: r => (stdUtf8Decode [b0, b1, b2]).isSome && IsValidUTF8 r
      | _ => false
    else
      match rest with
      | b1 :: b2 :: b3 :: r => (stdUtf8Decode [b0, b1, b2, b3]).isSome && IsValidUTF8 r
      | _ => false

/-- The result `r` is the detector candidate `c` with a decoder attached:
the candidate's charset, language and confidence, and either the decoder that
`GetDecoderFromCharsetName` resolves for the charset with `Convertible` true,
or, when the resolution fails, the no-op decoder with `Convertible` false. -/
def IsResultOf {Enc : Type} (env : Env Enc) (c : Candidate) (r : Result) : Prop :=
  r.Charset = c.Charset ∧ r.Language = c.Language ∧ r.Confidence = c.Confidence ∧
  ((∃ d, GetDecoderFromCharsetName env c.Charset = some (.ok d) ∧
      r.Convertible = true ∧ r.Decoder = d) ∨
   ((∃ err, GetDecoderFromCharsetName env c.Charset = some (.error err)) ∧
      r.Convertible = false ∧ r.Decoder = nopDecoder))

/-! ### A sample environment

Canned answers of the external collaborators, used to evaluate the functions
of `charset.go` on concrete inputs. -/

/-- Encoding handles of the sample registries. -/
inductive SampleEnc where
  | gb18030
  | latin1
  | ascii
  | iso2022jp
  | utf8
  | utf32le
  | utf32be
  deriving DecidableEq

/-- ASCII lower-casing, the sample `strings.ToLower`. -/
def asciiLower (s : String) : String :=
  String.mk (s.data.map fun c => if 'A' ≤ c ∧ c ≤ 'Z' then Char.ofNat (c.toNat + 32) else c)

/-- Removal of leading and trailing blanks, the sample `strings.TrimSpace`. -/
def asciiTrim (s : String) : String :=
  String.mk (((s.data.dropWhile (fun c => c = ' ')).reverse.dropWhile
    (fun c => c = ' ')).reverse)

/-- The sample decoders.  `latin1` copies a byte below `0x80` and encodes any
other byte `b` as the scalar `b`; `ascii` copies bytes below `0x80` and stops
with an error at the first other byte, having produced the bytes before it;
`gb18030` and `iso2022jp` are stand-ins that are right on the inputs used
here; the others copy their input. -/
def sampleNewDecoder : SampleEnc → Decoder
  | .latin1 => fun content =>
    ((content.map fun b => if b < 0x80 then [b] else unicodeRuneToUtf8 b).flatten, none)
  | .ascii => fun content =>
    (content.takeWhile (fun b => b < 0x80),
      if content.all (fun b => b < 0x80) then none
      else some (Err.external "encoding: rune not supported by encoding."))
  | .gb18030 => fun content =>
    ((content.map fun b => if b < 0x80 then [b] else [0xEF, 0xBF, 0xBD]).flatten, none)
  | .iso2022jp => fun content =>
    if content = [0x1B, 0x24, 0x42, 0x30, 0x21, 0x1B, 0x28, 0x42] then
      ([0xE4, 0xBA, 0x9C], none)
    else (content.filter (fun b => b ≠ 0x1B), none)
  | _ => fun content => (content, none)

/-- The sample detector: an error on `FF`; GB-18030 with confidence 95 on the
UTF-16BE bytes `00 41 20 AC`; GB2312 on `81 7F`; ISO-2022-JP on the 7-bit
bytes `ESC $ B 0 ! ESC ( B`; no candidate on `FE`; UTF-8 first elsewhere. -/
def sampleDetect (content : List Nat) : List Candidate × Option Err :=
  if content = [0xFF] then ([], some (Err.external "Charset not detected."))
  else if content = [0xFE] then ([], none)
  else if content = [0x00, 0x41, 0x20, 0xAC] then
    ([⟨"GB-18030", "zh", 95⟩, ⟨"UTF-16BE", "", 60⟩, ⟨"ISO-8859-1", "en", 10⟩], none)
  else if content = [0x81, 0x7F] then
    ([⟨"GB2312", "zh", 95⟩], none)
  else if content = [0x1B, 0x24, 0x42, 0x30, 0x21, 0x1B, 0x28, 0x42] then
    ([⟨"ISO-2022-JP", "ja", 70⟩, ⟨"UTF-8", "", 10⟩], none)
  else
    ([⟨"UTF-8", "", 80⟩, ⟨"ISO-8859-1", "fr", 20⟩, ⟨"IBM424_rtl", "he", 5⟩], none)

/-- The sample environment.  The HTML registry knows `gb18030`, `iso-8859-1`,
`iso-2022-jp` and `utf-8`; the IANA registry knows `us-ascii` and `iso-8859-1`, and
answers `(nil, nil)` on the registered but unsupported `ibm424_rtl`. -/
def sampleEnv : Env SampleEnc where
  detectAll := sampleDetect
  htmlGet := fun name =>
    if name = "gb18030" then (some .gb18030, none)
    else if name = "iso-8859-1" then (some .latin1, none)
    else if name = "iso-2022-jp" then (some .iso2022jp, none)
    else if name = "utf-8" then (some .utf8, none)
    else (none, some (Err.external "htmlindex: invalid encoding name"))
  ianaEncoding := fun name =>
    if name = "us-ascii" then (some .ascii, none)
    else if name = "iso-8859-1" then (some .latin1, none)
    else if name = "ibm424_rtl" then (none, none)
    else (none, some (Err.external "ianaindex: invalid encoding name"))
  ianaName := fun e =>
    match e with
    | .gb18030 => ("GB18030", none)
    | .latin1 => ("ISO_8859-1:1987", none)
    | .ascii => ("US-ASCII", none)
    | .iso2022jp => ("ISO-2022-JP", none)
    | .utf8 => ("", some (Err.external "ianaindex: unsupported Encoding"))
    | _ => ("", some (Err.external "ianaindex: unknown Encoding"))
  htmlName := fun e =>
    match e with
    | .gb18030 => ("gb18030", none)
    | .latin1 => ("windows-1252", none)
    | .iso2022jp => ("iso-2022-jp", none)
    | .utf8 => ("utf-8", none)
    | .utf32be => ("", some (Err.external "htmlindex: this encoding is not supported"))
    | _ => ("", some (Err.external "htmlindex: unknown Encoding"))
  utf32LE := .utf32le
  utf32BE := .utf32be
  newDecoder := sampleNewDecoder
  toLower := asciiLower
  trimSpace := asciiTrim

/-- The sample environment with an HTML registry that, as `htmlindex` does,
also knows the labels `gbk` and `gb2312`. -/
def sampleEnvGBK : Env SampleEnc :=
  { sampleEnv with
    htmlGet := fun name =>
      if name = "gbk" ∨ name = "gb2312" then (some SampleEnc.gb18030, none)
      else sampleEnv.htmlGet name }

/-- The part of a `DetectAndConvertToUtf8` result that can be compared: the
bytes, the verdict's charset, confidence and convertibility, and the error. -/
def summary (r : Option (List Nat × Option Result × Option Err)) :
    Option (List Nat × Option (String × Int × Bool) × Option Err) :=
  r.map fun t => (t.1, t.2.1.map (fun v => (v.Charset, v.Confidence, v.Convertible)), t.2.2)

theorem isConcatOf_nil (isChar : List Nat → Bool) : IsConcatOf isChar [] :=
  ⟨[], by simp, rfl⟩

theorem isConcatOf_append (isChar : List Nat → Bool) (c rest : List Nat)
    (hc : isChar c = true) (hr : IsConcatOf isChar rest) :
    IsConcatOf isChar (c ++ rest) := by
  obtain ⟨chars, hall, hflat⟩ := hr
  refine ⟨c :: chars, ?_, by simp [hflat]⟩
  intro x hx
  rcases List.mem_cons.mp hx with rfl | hx
  · exact hc
  · exact hall x hx

theorem gbk_loop1_cons (b : Nat) (rest : List Nat) :
    isValidGBKLoop 1 (b :: rest) = true ↔
      (b ≤ 0x7F ∧ isValidGBKLoop 1 rest = true) ∨
      (0x81 ≤ b ∧ b ≤ 0xFE ∧ isValidGBKLoop 2 rest = true) := by
  simp only [isValidGBKLoop, if_true]
  split_ifs with h1 h2
  · constructor
    · intro h; exact Or.inl ⟨h1, h⟩
    · rintro (⟨_, h⟩ | ⟨h, _⟩)
      · exact h
      · omega
  · constructor
    · intro h; exact Or.inr ⟨h2.1, h2.2, h⟩
    · rintro (⟨h, _⟩ | ⟨_, _, h⟩)
      · omega
      · exact h
  · constructor
    · intro h; cases h
    · rintro (⟨h, _⟩ | ⟨h, hb, _⟩)
      · omega
      · exact absurd ⟨h, hb⟩ h2

theorem gbk_loop2_cons (t : Nat) (rest : List Nat) :
    isValidGBKLoop 2 (t :: rest) = true ↔
      (0x40 ≤ t ∧ t ≤ 0xFE ∧ t ≠ 0x7F ∧ isValidGBKLoop 1 rest = true) := by
  simp only [isValidGBKLoop]
  by_cases h : t < 0x40 ∨ t > 0xFE ∨ t = 0x7F
  · simp only [h, if_true]
    constructor
    · intro h2; simp at h2
    · rintro ⟨_, _, _, _⟩; omega
  · simp only [h, if_false]
    constructor
    · intro h2; exact ⟨by omega, by omega, by omega, by simpa using h2⟩
    · rintro ⟨_, _, _, h2⟩; simpa using h2

theorem gbk_sound : ∀ content : List Nat,
    isValidGBKLoop 1 content = true → IsConcatOf isGBKChar content
  | [], _ => isConcatOf_nil _
  | [b], h => by
    rcases (gbk_loop1_cons b []).mp h with ⟨hb, _⟩ | ⟨_, _, h2⟩
    · exact isConcatOf_append _ [b] [] (by simp [isGBKChar, hb]) (isConcatOf_nil _)
    · simp [isValidGBKLoop] at h2
  | b :: t :: rest, h => by
    rcases (gbk_loop1_cons b (t :: rest)).mp h with ⟨hb, h1⟩ | ⟨hl, hl2, h2⟩
    · exact isConcatOf_append _ [b] (t :: rest) (by simp [isGBKChar, hb])
        (gbk_sound (t :: rest) h1)
    · obtain ⟨ht, ht2, ht3, h1⟩ := (gbk_loop2_cons t rest).mp h2
      exact isConcatOf_append _ [b, t] rest (by simp [isGBKChar]; omega)
        (gbk_sound rest h1)

theorem gbk_char_step (c rest : List Nat) (hc : isGBKChar c = true) :
    isValidGBKLoop 1 (c ++ rest) = isValidGBKLoop 1 rest := by
  match c, hc with
  | [b], hc =>
    simp only [isGBKChar, decide_eq_true_eq] at hc
    simp [isValidGBKLoop, hc]
  | [l, t], hc =>
    simp only [isGBKChar, decide_eq_true_eq] at hc
    have h1 : ¬ l ≤ 0x7F := by omega
    have h2 : ¬ (t < 0x40 ∨ t > 0xFE ∨ t = 0x7F) := by omega
    simp [isValidGBKLoop, h1, h2, hc.1, hc.2.1]

theorem concat_step (isChar : List Nat → Bool) (f : List Nat → Bool)
    (hstep : ∀ c rest, isChar c = true → f (c ++ rest) = f rest) :
    ∀ chars : List (List Nat), (∀ c ∈ chars, isChar c = true) →
      ∀ p : List Nat, f (chars.flatten ++ p) = f p
  | [], _, p => by simp
  | c :: chars, h, p => by
    rw [List.flatten_cons, List.append_assoc, hstep c _ (h c (List.mem_cons_self _ _))]
    exact concat_step isChar f hstep chars (fun x hx => h x (List.mem_cons_of_mem _ hx)) p

theorem gbk_complete (chars : List (List Nat))
    (h : ∀ c ∈ chars, isGBKChar c = true) :
    isValidGBKLoop 1 chars.flatten = true := by
  have := concat_step isGBKChar (isValidGBKLoop 1) gbk_char_step chars h []
  simpa [isValidGBKLoop] using this

theorem gbk_dangling_lead (content : List Nat) (l : Nat)
    (hv : IsConcatOf isGBKChar content) (hl : 0x81 ≤ l ∧ l ≤ 0xFE) :
    isValidGBKLoop 1 (content ++ [l]) = false := by
  obtain ⟨chars, hall, rfl⟩ := hv
  rw [concat_step isGBKChar (isValidGBKLoop 1) gbk_char_step chars hall [l]]
  have h1 : ¬ l ≤ 0x7F := by omega
  simp [isValidGBKLoop, h1, hl.1, hl.2]

/-- C1: `isValidGBK` accepts a byte sequence exactly when it is a
concatenation of GBK characters (one byte `≤ 0x7F`, or a lead byte in
`[0x81, 0xFE]` followed by a trail byte in `[0x40, 0xFE]` other than `0x7F`);
a well-formed sequence followed by a lone lead byte is rejected. -/
theorem isValidGBK_iff_concat (content : List Nat) :
    (isValidGBK content = true ↔ IsConcatOf isGBKChar content) ∧
    (∀ l : Nat, IsConcatOf isGBKChar content → 0x81 ≤ l ∧ l ≤ 0xFE →
      isValidGBK (content ++ [l]) = false) := by
  have hiff : isValidGBK content = true ↔ IsConcatOf isGBKChar content := by
    constructor
    · exact gbk_sound content
    · rintro ⟨chars, hall, rfl⟩
      exact gbk_complete chars hall
  refine ⟨hiff, ?_⟩
  intro l hc hl
  exact gbk_dangling_lead content l hc hl

/-- C1 witness: the GBK text `C4 E3 BA C3` is accepted, and is rejected once
the lead byte `0x81` is appended. -/
theorem isValidGBK_iff_concat_witness :
    isValidGBK [0xC4, 0xE3, 0xBA, 0xC3] = true ∧
    isValidGBK ([0xC4, 0xE3, 0xBA, 0xC3] ++ [0x81]) = false :=
  ⟨by decide,
   (isValidGBK_iff_concat [0xC4, 0xE3, 0xBA, 0xC3]).2 0x81
     ⟨[[0xC4, 0xE3], [0xBA, 0xC3]], by decide, by decide⟩ (by decide)⟩

/-! ### GB18030 -/

theorem gb18030_loop1_cons (b : Nat) (rest : List Nat)
    (h : isValidGB18030Loop 1 (b :: rest) = true) :
    (b ≤ 0x7F ∧ isValidGB18030Loop 1 rest = true) ∨
    (0x81 ≤ b ∧ b ≤ 0xFE ∧ isValidGB18030Loop 2 rest = true) := by
  rw [isValidGB18030Loop, if_pos rfl] at h
  by_cases h1 : b ≤ 0x7F
  · rw [if_pos h1] at h
    exact Or.inl ⟨h1, h⟩
  · rw [if_neg h1] at h
    by_cases h2 : b ≥ 0x81 ∧ b ≤ 0xFE
    · rw [if_pos h2] at h
      exact Or.inr ⟨h2.1, h2.2, h⟩
    · rw [if_neg h2] at h
      exact absurd h (by decide)

theorem gb18030_loop2_cons (b : Nat) (rest : List Nat)
    (h : isValidGB18030Loop 2 (b :: rest) = true) :
    (0x40 ≤ b ∧ b ≤ 0xFE ∧ b ≠ 0x7F ∧ isValidGB18030Loop 1 rest = true) ∨
    (0x30 ≤ b ∧ b ≤ 0x39 ∧ isValidGB18030Loop 3 rest = true) := by
  rw [isValidGB18030Loop, if_neg (by decide), if_pos rfl] at h
  by_cases h1 : b ≥ 0x40 ∧ b ≤ 0xFE ∧ b ≠ 0x7F
  · rw [if_pos h1] at h
    exact Or.inl ⟨h1.1, h1.2.1, h1.2.2, h⟩
  · rw [if_neg h1] at h
    by_cases h2 : b ≥ 0x30 ∧ b ≤ 0x39
    · rw [if_pos h2] at h
      exact Or.inr ⟨h2.1, h2.2, h⟩
    · rw [if_neg h2] at h
      exact absurd h (by decide)

theorem gb18030_loop3_cons (b : Nat) (rest : List Nat)
    (h : isValidGB18030Loop 3 (b :: rest) = true) :
    0x81 ≤ b ∧ b ≤ 0xFE ∧ isValidGB18030Loop 4 rest = true := by
  rw [isValidGB18030Loop, if_neg (by decide), if_neg (by decide), if_pos rfl] at h
  by_cases h1 : b ≥ 0x81 ∧ b ≤ 0xFE
  · rw [if_pos h1] at h
    exact ⟨h1.1, h1.2, h⟩
  · rw [if_neg h1] at h
    exact absurd h (by decide)

theorem gb18030_loop4_cons (b : Nat) (rest : List Nat)
    (h : isValidGB18030Loop 4 (b :: rest) = true) :
    0x30 ≤ b ∧ b ≤ 0x39 ∧ isValidGB18030Loop 1 rest = true := by
  rw [isValidGB18030Loop, if_neg (by decide), if_neg (by decide), if_neg (by decide),
    if_pos rfl] at h
  by_cases h1 : b ≥ 0x30 ∧ b ≤ 0x39
  · rw [if_pos h1] at h
    exact ⟨h1.1, h1.2, h⟩
  · rw [if_neg h1] at h
    exact absurd h (by decide)

theorem gb18030_sound_aux (n : Nat) : ∀ content : List Nat, content.length ≤ n →
    isValidGB18030Loop 1 content = true → IsConcatOf isGB18030Char content := by
  induction n with
  | zero =>
    intro content hlen _
    have : content = [] := List.length_eq_zero.mp (by omega)
    subst this
    exact isConcatOf_nil _
  | succ n ih =>
    intro content hlen h
    match content, hlen, h with
    | [], _, _ => exact isConcatOf_nil _
    | b :: r1, hlen, h =>
      simp only [List.length_cons] at hlen
      rcases gb18030_loop1_cons b r1 h with ⟨hb, h1⟩ | ⟨hl, hl2, h2⟩
      · exact isConcatOf_append _ [b] r1 (by simp [isGB18030Char, hb])
          (ih r1 (by omega) h1)
      · match r1, hlen, h2 with
        | [], _, h2 => simp [isValidGB18030Loop] at h2
        | t :: r2, hlen, h2 =>
          simp only [List.length_cons] at hlen
          rcases gb18030_loop2_cons t r2 h2 with
            ⟨ht, ht2, ht3, h1⟩ | ⟨hd, hd2, h3⟩
          · exact isConcatOf_append _ [b, t] r2 (by simp [isGB18030Char]; omega)
              (ih r2 (by omega) h1)
          · match r2, hlen, h3 with
            | [], _, h3 => simp [isValidGB18030Loop] at h3
            | m :: r3, hlen, h3 =>
              simp only [List.length_cons] at hlen
              obtain ⟨hm, hm2, h4⟩ := gb18030_loop3_cons m r3 h3
              match r3, hlen, h4 with
              | [], _, h4 => simp [isValidGB18030Loop] at h4
              | e :: r4, hlen, h4 =>
                simp only [List.length_cons] at hlen
                obtain ⟨he, he2, h1⟩ := gb18030_loop4_cons e r4 h4
                exact isConcatOf_append _ [b, t, m, e] r4
                  (by simp [isGB18030Char]; omega) (ih r4 (by omega) h1)

theorem gb18030_char_step (c rest : List Nat) (hc : isGB18030Char c = true) :
    isValidGB18030Loop 1 (c ++ rest) = isValidGB18030Loop 1 rest := by
  match c, hc with
  | [b], hc =>
    simp only [isGB18030Char, decide_eq_true_eq] at hc
    simp [isValidGB18030Loop, hc]
  | [l, t], hc =>
    simp only [isGB18030Char, decide_eq_true_eq] at hc
    have h1 : ¬ l ≤ 0x7F := by omega
    have h2 : t ≥ 0x40 ∧ t ≤ 0xFE ∧ t ≠ 0x7F := by omega
    simp [isValidGB18030Loop, h1, h2, hc.1, hc.2.1]
  | [l, d, m, e], hc =>
    simp only [isGB18030Char, decide_eq_true_eq] at hc
    have h1 : ¬ l ≤ 0x7F := by omega
    have h2 : ¬ (d ≥ 0x40 ∧ d ≤ 0xFE ∧ d ≠ 0x7F) := by omega
    have h3 : d ≥ 0x30 ∧ d ≤ 0x39 := by omega
    have h4 : m ≥ 0x81 ∧ m ≤ 0xFE := by omega
    have h5 : e ≥ 0x30 ∧ e ≤ 0x39 := by omega
    have h0 : l ≥ 0x81 ∧ l ≤ 0xFE := by omega
    simp only [List.cons_append, List.nil_append, isValidGB18030Loop, h0, h1, h2, h3, h4, h5]
    simp

theorem gb18030_truncated_rejected (p : List Nat) (hp : isGB18030Truncated p = true) :
    isValidGB18030Loop 1 p = false := by
  match p, hp with
  | [l], hp =>
    simp only [isGB18030Truncated, decide_eq_true_eq] at hp
    have h1 : ¬ l ≤ 0x7F := by omega
    simp [isValidGB18030Loop, h1, hp]
  | [l, d], hp =>
    simp only [isGB18030Truncated, decide_eq_true_eq] at hp
    have h0 : l ≥ 0x81 ∧ l ≤ 0xFE := by omega
    have h1 : ¬ l ≤ 0x7F := by omega
    have h2 : ¬ (d ≥ 0x40 ∧ d ≤ 0xFE ∧ d ≠ 0x7F) := by omega
    have h3 : d ≥ 0x30 ∧ d ≤ 0x39 := by omega
    simp only [isValidGB18030Loop, h0, h1, h2, h3]
    simp
  | [l, d, m], hp =>
    simp only [isGB18030Truncated, decide_eq_true_eq] at hp
    have h0 : l ≥ 0x81 ∧ l ≤ 0xFE := by omega
    have h1 : ¬ l ≤ 0x7F := by omega
    have h2 : ¬ (d ≥ 0x40 ∧ d ≤ 0xFE ∧ d ≠ 0x7F) := by omega
    have h3 : d ≥ 0x30 ∧ d ≤ 0x39 := by omega
    have h4 : m ≥ 0x81 ∧ m ≤ 0xFE := by omega
    simp only [isValidGB18030Loop, h0, h1, h2, h3, h4]
    simp

/-- C2: `isValidGB18030` accepts a byte sequence exactly when it is a
concatenation of GB18030 characters (one byte `≤ 0x7F`; lead in `[0x81, 0xFE]`
then trail in `[0x40, 0xFE]` other than `0x7F`; or lead in `[0x81, 0xFE]`,
digit in `[0x30, 0x39]`, byte in `[0x81, 0xFE]`, digit in `[0x30, 0x39]`);
a well-formed sequence followed by the first 1, 2 or 3 bytes of a multi-byte
character is rejected. -/
theorem isValidGB18030_iff_concat (content : List Nat) :
    (isValidGB18030 content = true ↔ IsConcatOf isGB18030Char content) ∧
    (∀ p : List Nat, IsConcatOf isGB18030Char content →
      isGB18030Truncated p = true → isValidGB18030 (content ++ p) = false) := by
  constructor
  · constructor
    · exact gb18030_sound_aux content.length content (Nat.le_refl _)
    · rintro ⟨chars, hall, rfl⟩
      have := concat_step isGB18030Char (isValidGB18030Loop 1) gb18030_char_step
        chars hall []
      simpa [isValidGB18030, isValidGB18030Loop] using this
  · rintro p ⟨chars, hall, rfl⟩ hp
    unfold isValidGB18030
    rw [concat_step isGB18030Char (isValidGB18030Loop 1) gb18030_char_step chars hall p]
    exact gb18030_truncated_rejected p hp

/-- C2 witness: `41`, `C4 E3`, `81 30 81 30` is accepted, and is rejected
when followed by the first three bytes `81 30 81` of a four-byte character. -/
theorem isValidGB18030_iff_concat_witness :
    isValidGB18030 [0x41, 0xC4, 0xE3, 0x81, 0x30, 0x81, 0x30] = true ∧
    isValidGB18030 ([0x41, 0xC4, 0xE3, 0x81, 0x30, 0x81, 0x30] ++ [0x81, 0x30, 0x81])
      = false :=
  ⟨by decide,
   (isValidGB18030_iff_concat [0x41, 0xC4, 0xE3, 0x81, 0x30, 0x81, 0x30]).2
     [0x81, 0x30, 0x81]
     ⟨[[0x41], [0xC4, 0xE3], [0x81, 0x30, 0x81, 0x30]], by decide, by decide⟩
     (by decide)⟩

/-! ### Big5 -/

theorem big5_loop1_cons (b : Nat) (rest : List Nat)
    (h : isValidBig5Loop 1 (b :: rest) = true) :
    (b ≤ 0x7F ∧ isValidBig5Loop 1 rest = true) ∨
    (0x81 ≤ b ∧ b ≤ 0xFE ∧ isValidBig5Loop 2 rest = true) := by
  rw [isValidBig5Loop, if_pos rfl] at h
  by_cases h1 : b ≤ 0x7F
  · rw [if_pos h1] at h
    exact Or.inl ⟨h1, h⟩
  · rw [if_neg h1] at h
    by_cases h2 : b ≥ 0x81 ∧ b ≤ 0xFE
    · rw [if_pos h2] at h
      exact Or.inr ⟨h2.1, h2.2, h⟩
    · rw [if_neg h2] at h
      exact absurd h (by decide)

theorem big5_loop2_cons (t : Nat) (rest : List Nat)
    (h : isValidBig5Loop 2 (t :: rest) = true) :
    (0x40 ≤ t ∧ t ≤ 0x7E ∨ 0xA1 ≤ t ∧ t ≤ 0xFE) ∧ isValidBig5Loop 1 rest = true := by
  rw [isValidBig5Loop, if_neg (by decide), if_pos rfl] at h
  by_cases h1 : ¬ (t ≥ 0x40 ∧ t ≤ 0x7E ∨ t ≥ 0xA1 ∧ t ≤ 0xFE)
  · rw [if_pos h1] at h
    exact absurd h (by decide)
  · rw [if_neg h1] at h
    exact ⟨not_not.mp h1, h⟩

theorem big5_sound : ∀ content : List Nat,
    isValidBig5Loop 1 content = true → IsConcatOf isBig5Char content
  | [], _ => isConcatOf_nil _
  | [b], h => by
    rcases big5_loop1_cons b [] h with ⟨hb, _⟩ | ⟨_, _, h2⟩
    · exact isConcatOf_append _ [b] [] (by simp [isBig5Char, hb]) (isConcatOf_nil _)
    · simp [isValidBig5Loop] at h2
  | b :: t :: rest, h => by
    rcases big5_loop1_cons b (t :: rest) h with ⟨hb, h1⟩ | ⟨hl, hl2, h2⟩
    · exact isConcatOf_append _ [b] (t :: rest) (by simp [isBig5Char, hb])
        (big5_sound (t :: rest) h1)
    · obtain ⟨ht, h1⟩ := big5_loop2_cons t rest h2
      exact isConcatOf_append _ [b, t] rest
        (by simp only [isBig5Char, decide_eq_true_eq]; exact ⟨hl, hl2, ht⟩)
        (big5_sound rest h1)

theorem big5_char_step (c rest : List Nat) (hc : isBig5Char c = true) :
    isValidBig5Loop 1 (c ++ rest) = isValidBig5Loop 1 rest := by
  match c, hc with
  | [b], hc =>
    simp only [isBig5Char, decide_eq_true_eq] at hc
    simp [isValidBig5Loop, hc]
  | [l, t], hc =>
    simp only [isBig5Char, decide_eq_true_eq] at hc
    have h0 : l ≥ 0x81 ∧ l ≤ 0xFE := ⟨hc.1, hc.2.1⟩
    have h1 : ¬ l ≤ 0x7F := by omega
    have h2 : ¬ ¬ (t ≥ 0x40 ∧ t ≤ 0x7E ∨ t ≥ 0xA1 ∧ t ≤ 0xFE) := not_not.mpr hc.2.2
    rw [List.cons_append, List.cons_append, List.nil_append, isValidBig5Loop,
      if_pos rfl, if_neg h1, if_pos h0, isValidBig5Loop, if_neg (by decide), if_pos rfl,
      if_neg h2]

/-- C3: `isValidBig5` accepts a byte sequence exactly when it is a
concatenation of Big5 characters (one byte `≤ 0x7F`, or a lead byte in
`[0x81, 0xFE]` followed by a trail byte in `[0x40, 0x7E]` or `[0xA1, 0xFE]`);
a well-formed sequence followed by a lone lead byte is rejected. -/
theorem isValidBig5_iff_concat (content : List Nat) :
    (isValidBig5 content = true ↔ IsConcatOf isBig5Char content) ∧
    (∀ l : Nat, IsConcatOf isBig5Char content → 0x81 ≤ l ∧ l ≤ 0xFE →
      isValidBig5 (content ++ [l]) = false) := by
  constructor
  · constructor
    · exact big5_sound content
    · rintro ⟨chars, hall, rfl⟩
      have := concat_step isBig5Char (isValidBig5Loop 1) big5_char_step chars hall []
      simpa [isValidBig5, isValidBig5Loop] using this
  · rintro l ⟨chars, hall, rfl⟩ hl
    unfold isValidBig5
    rw [concat_step isBig5Char (isValidBig5Loop 1) big5_char_step chars hall [l]]
    have h1 : ¬ l ≤ 0x7F := by omega
    rw [isValidBig5Loop, if_pos rfl, if_neg h1, if_pos hl]
    rfl

/-- C3 witness: the Big5 text `A4 40 41 A7 DA` is accepted, and is rejected
once the lead byte `0xA4` is appended. -/
theorem isValidBig5_iff_concat_witness :
    isValidBig5 [0xA4, 0x40, 0x41, 0xA7, 0xDA] = true ∧
    isValidBig5 ([0xA4, 0x40, 0x41, 0xA7, 0xDA] ++ [0xA4]) = false :=
  ⟨by decide,
   (isValidBig5_iff_concat [0xA4, 0x40, 0x41, 0xA7, 0xDA]).2 0xA4
     ⟨[[0xA4, 0x40], [0x41], [0xA7, 0xDA]], by decide, by decide⟩ (by decide)⟩

/-! ### UTF-16 -/

/-- C4: on the UTF-16BE bytes `E0 00` (the single BMP code unit `0xE000`, not
`0xFEFF`) the specified scan accepts, since `0xE000` is not a high surrogate,
while `isValidUTF16BE` returns false; likewise `isValidUTF16LE` on `00 E0`.
The source tests `c >= 0xD800 && c <= 0xFFFF` where its comment and the
specified scan have the high-surrogate range `0xD800-0xDBFF`. -/
theorem isValidUTF16_differs_from_specified_scan :
    specUTF16Scan false (specUnitsBE [0xE0, 0x00]) = true ∧
    isValidUTF16BE [0xE0, 0x00] = some false ∧
    specUTF16Scan false (specUnitsLE [0x00, 0xE0]) = true ∧
    isValidUTF16LE [0x00, 0xE0] = some false := by
  decide

/-- C5: `FF 0C` is the UTF-16BE encoding of the scalar U+FF0C (fullwidth
comma) and `0C FF` its UTF-16LE encoding, and `isValidUTF16BE`,
`isValidUTF16LE` return false on them. -/
theorem isValidUTF16_rejects_encoded_scalar :
    encodeUTF16BE [0xFF0C] = [0xFF, 0x0C] ∧
    isValidUTF16BE [0xFF, 0x0C] = some false ∧
    encodeUTF16LE [0xFF0C] = [0x0C, 0xFF] ∧
    isValidUTF16LE [0x0C, 0xFF] = some false := by
  decide

/-- C6: on a byte sequence of length zero or of odd length `isValidUTF16BE`
and `isValidUTF16LE` return false, so `isValidUTF16` reports false three
times; each returns a value, so no index is read out of range. -/
theorem isValidUTF16_rejects_empty_or_odd (content : List Nat)
    (h : content.length = 0 ∨ content.length % 2 = 1) :
    isValidUTF16BE content = some false ∧
    isValidUTF16LE content = some false ∧
    isValidUTF16 content = some (false, false, false) := by
  have hbe : isValidUTF16BE content = some false := by
    unfold isValidUTF16BE
    rcases h with h | h
    · rw [if_pos h]
    · rw [if_neg (by omega), if_pos (by rw [Nat.and_one_is_mod]; omega)]
  have hle : isValidUTF16LE content = some false := by
    unfold isValidUTF16LE
    rcases h with h | h
    · rw [if_pos h]
    · rw [if_neg (by omega), if_pos (by rw [Nat.and_one_is_mod]; omega)]
  refine ⟨hbe, hle, ?_⟩
  simp [isValidUTF16, hbe, hle]

/-- C6 witness: the three-byte sequence `00 41 00`. -/
theorem isValidUTF16_rejects_empty_or_odd_witness :
    isValidUTF16BE [0x00, 0x41, 0x00] = some false ∧
    isValidUTF16LE [0x00, 0x41, 0x00] = some false ∧
    isValidUTF16 [0x00, 0x41, 0x00] = some (false, false, false) :=
  isValidUTF16_rejects_empty_or_odd [0x00, 0x41, 0x00] (Or.inr (by decide))

/-- C7: a non-empty even-length byte sequence that starts `FE FF` is accepted
by `isValidUTF16BE`, and one that starts `FF FE` is accepted by
`isValidUTF16LE`, whatever the remaining bytes are. -/
theorem isValidUTF16_bom_accepts (content : List Nat)
    (hne : content ≠ []) (heven : content.length % 2 = 0) :
    (content[0]? = some 0xFE → content[1]? = some 0xFF →
      isValidUTF16BE content = some true) ∧
    (content[0]? = some 0xFF → content[1]? = some 0xFE →
      isValidUTF16LE content = some true) := by
  have hlen : ¬ content.length = 0 := by
    intro h; exact hne (List.length_eq_zero.mp h)
  have hodd : ¬ (content.length &&& 0x1 ≠ 0) := by
    rw [Nat.and_one_is_mod]; omega
  constructor
  · intro h0 h1
    unfold isValidUTF16BE
    rw [if_neg hlen, if_neg hodd, h0, h1]
    rfl
  · intro h0 h1
    unfold isValidUTF16LE
    rw [if_neg hlen, if_neg hodd, h0, h1]
    rfl

/-- C7 witness: a byte-order mark followed by a lone high surrogate. -/
theorem isValidUTF16_bom_accepts_witness :
    isValidUTF16BE [0xFE, 0xFF, 0xD8, 0x00] = some true ∧
    isValidUTF16LE [0xFF, 0xFE, 0x00, 0xD8] = some true :=
  ⟨(isValidUTF16_bom_accepts [0xFE, 0xFF, 0xD8, 0x00] (by decide) (by decide)).1
      (by decide) (by decide),
   (isValidUTF16_bom_accepts [0xFF, 0xFE, 0x00, 0xD8] (by decide) (by decide)).2
      (by decide) (by decide)⟩

/-! ### unicodeRuneToUtf8 -/

theorem toByte_natCast (m : Nat) : toByte (m : Int) = m % 256 := by
  unfold toByte; omega

theorem land_natCast (a b : Nat) :
    Int.land (a : Int) (b : Int) = ((a &&& b : Nat) : Int) := rfl

theorem shr_natCast (a s : Nat) : (a : Int) >>> s = ((a >>> s : Nat) : Int) := rfl

theorem tmod_natCast (a : Nat) : Int.tmod (a : Int) 64 = ((a % 64 : Nat) : Int) := rfl

theorem and_63 (x : Nat) : x &&& 0x3F = x % 64 :=
  Nat.and_pow_two_sub_one_eq_mod x 6

theorem and_bit_of_mod (x k : Nat) (hk : k < 6) :
    x &&& (1 <<< k) = (x % 64) &&& (1 <<< k) := by
  have h63 : (63 : Nat) &&& (1 <<< k) = 1 <<< k := by
    interval_cases k <;> decide
  rw [← and_63, Nat.and_assoc, h63]

theorem toByte_land_tmod (n k : Nat) (hk : k < 6) :
    toByte (Int.land (Int.tmod (n : Int) 64) (shl1 k)) = (n % 64) &&& (1 <<< k) := by
  unfold shl1
  rw [tmod_natCast, land_natCast, toByte_natCast]
  apply Nat.mod_eq_of_lt
  have h1 : (n % 64) &&& (1 <<< k) ≤ 1 <<< k := Nat.and_le_right
  have h2 : 1 <<< k ≤ 32 := by interval_cases k <;> decide
  omega

theorem toByte_land_shr (n s k : Nat) (hk : k < 6) :
    toByte (Int.land ((n : Int) >>> s) (shl1 k)) = ((n >>> s) % 64) &&& (1 <<< k) := by
  unfold shl1
  rw [shr_natCast, land_natCast, toByte_natCast, ← and_bit_of_mod _ k hk]
  apply Nat.mod_eq_of_lt
  have h1 : (n >>> s) &&& (1 <<< k) ≤ 1 <<< k := Nat.and_le_right
  have h2 : 1 <<< k ≤ 32 := by interval_cases k <;> decide
  omega

theorem range11 : List.range 11 = [0, 1, 2, 3, 4, 5, 6, 7, 8, 9, 10] := by decide

theorem range16 :
    List.range 16 = [0, 1, 2, 3, 4, 5, 6, 7, 8, 9, 10, 11, 12, 13, 14, 15] := by decide

theorem range21 :
    List.range 21 = [0, 1, 2, 3, 4, 5, 6, 7, 8, 9, 10, 11, 12, 13, 14, 15, 16, 17, 18,
      19, 20] := by decide

theorem or_bits6 : ∀ m < 64,
    128 ||| m &&& 1 <<< 0 ||| m &&& 1 <<< 1 ||| m &&& 1 <<< 2 ||| m &&& 1 <<< 3 |||
      m &&& 1 <<< 4 ||| m &&& 1 <<< 5 = 128 ||| m := by decide

theorem or_bits5 : ∀ y < 32,
    192 ||| y &&& 1 <<< 0 ||| y &&& 1 <<< 1 ||| y &&& 1 <<< 2 ||| y &&& 1 <<< 3 |||
      y &&& 1 <<< 4 = 192 ||| y := by decide

theorem or_bits4 : ∀ y < 16,
    224 ||| y &&& 1 <<< 0 ||| y &&& 1 <<< 1 ||| y &&& 1 <<< 2 ||| y &&& 1 <<< 3 =
      224 ||| y := by decide

theorem or_bits3 : ∀ y < 8,
    240 ||| y &&& 1 <<< 0 ||| y &&& 1 <<< 1 ||| y &&& 1 <<< 2 = 240 ||| y := by decide

theorem shr_mod64 (n s : Nat) (h : n >>> s < 64) : n >>> s % 64 = n >>> s :=
  Nat.mod_eq_of_lt h

/-- The encoder produces the standard bit layout on `[0, 0x10FFFF]`. -/
theorem unicodeRuneToUtf8_eq_layout (n : Nat) (hn : n ≤ 0x10FFFF) :
    unicodeRuneToUtf8 (n : Int) = utf8Layout n := by
  unfold unicodeRuneToUtf8 utf8Layout
  by_cases h1 : n ≤ 0x7F
  · rw [if_pos (by omega), if_pos h1, toByte_natCast]
    congr 1
    omega
  rw [if_neg (by omega), if_neg h1]
  by_cases h2 : n ≤ 0x7FF
  · rw [if_pos (by omega), if_pos h2, range11]
    simp only [List.foldl_cons, List.foldl_nil, Nat.reduceLT, Nat.reduceSub, if_true,
      if_false, ↓reduceIte]
    simp only [toByte_land_tmod, toByte_land_shr, Nat.reduceLT]
    have hy : n >>> 6 < 32 := by rw [Nat.shiftRight_eq_div_pow]; omega
    rw [shr_mod64 n 6 (by omega), or_bits6 _ (Nat.mod_lt n (by decide)),
      or_bits5 _ hy, and_63]
  rw [if_neg (by omega), if_neg h2]
  by_cases h3 : n ≤ 0xFFFF
  · rw [if_pos (by omega), if_pos h3, range16]
    simp only [List.foldl_cons, List.foldl_nil, Nat.reduceLT, Nat.reduceSub, if_true,
      if_false, ↓reduceIte]
    simp only [toByte_land_tmod, toByte_land_shr, Nat.reduceLT]
    have hy : n >>> 12 < 16 := by rw [Nat.shiftRight_eq_div_pow]; omega
    rw [shr_mod64 n 12 (by omega), or_bits6 _ (Nat.mod_lt n (by decide)),
      or_bits6 _ (Nat.mod_lt (n >>> 6) (by decide)), or_bits4 _ hy, and_63, and_63]
  rw [if_neg (by omega), if_neg h3, if_pos (by omega), range21]
  simp only [List.foldl_cons, List.foldl_nil, Nat.reduceLT, Nat.reduceSub, if_true,
    if_false, ↓reduceIte]
  simp only [toByte_land_tmod, toByte_land_shr, Nat.reduceLT]
  have hy : n >>> 18 < 8 := by rw [Nat.shiftRight_eq_div_pow]; omega
  rw [shr_mod64 n 18 (by omega), or_bits6 _ (Nat.mod_lt n (by decide)),
    or_bits6 _ (Nat.mod_lt (n >>> 6) (by decide)),
    or_bits6 _ (Nat.mod_lt (n >>> 12) (by decide)), or_bits3 _ hy, and_63, and_63, and_63]

theorem or_add_128 : ∀ m < 64, 128 ||| m = 128 + m := by decide

theorem or_add_192 : ∀ y < 32, 192 ||| y = 192 + y := by decide

theorem or_add_224 : ∀ y < 16, 224 ||| y = 224 + y := by decide

theorem or_add_240 : ∀ y < 8, 240 ||| y = 240 + y := by decide

/-- The bit layout written with division and remainder. -/
theorem utf8Layout_arith (n : Nat) (hn : n ≤ 0x10FFFF) :
    utf8Layout n =
      if n ≤ 0x7F then [n]
      else if n ≤ 0x7FF then [192 + n / 64, 128 + n % 64]
      else if n ≤ 0xFFFF then [224 + n / 4096, 128 + n / 64 % 64, 128 + n % 64]
      else [240 + n / 262144, 128 + n / 4096 % 64, 128 + n / 64 % 64, 128 + n % 64] := by
  have e6 : n >>> 6 = n / 64 := Nat.shiftRight_eq_div_pow n 6
  have e12 : n >>> 12 = n / 4096 := Nat.shiftRight_eq_div_pow n 12
  have e18 : n >>> 18 = n / 262144 := Nat.shiftRight_eq_div_pow n 18
  have m0 : n % 64 < 64 := Nat.mod_lt n (by decide)
  have m6 : n / 64 % 64 < 64 := Nat.mod_lt _ (by decide)
  have m12 : n / 4096 % 64 < 64 := Nat.mod_lt _ (by decide)
  unfold utf8Layout
  rw [and_63, and_63, and_63, e6, e12, e18, or_add_128 _ m0, or_add_128 _ m6,
    or_add_128 _ m12]
  by_cases h1 : n ≤ 0x7F
  · rw [if_pos h1, if_pos h1]
  rw [if_neg h1, if_neg h1]
  by_cases h2 : n ≤ 0x7FF
  · rw [if_pos h2, if_pos h2, or_add_192 _ (by omega)]
  rw [if_neg h2, if_neg h2]
  by_cases h3 : n ≤ 0xFFFF
  · rw [if_pos h3, if_pos h3, or_add_224 _ (by omega)]
  rw [if_neg h3, if_neg h3, or_add_240 _ (by omega)]

/-- C8: for every Unicode scalar value `s` (in `[0, 0x10FFFF]`, outside
`[0xD800, 0xDFFF]`) a standard UTF-8 decoder applied to the bytes of
`unicodeRuneToUtf8 s` yields `s` and consumes all of them. -/
theorem unicodeRuneToUtf8_roundtrip (n : Nat) (hn : n ≤ 0x10FFFF)
    (hs : ¬ (0xD800 ≤ n ∧ n ≤ 0xDFFF)) :
    stdUtf8Decode (unicodeRuneToUtf8 (n : Int)) =
      some (n, (unicodeRuneToUtf8 (n : Int)).length) := by
  rw [unicodeRuneToUtf8_eq_layout n hn, utf8Layout_arith n hn]
  by_cases h1 : n ≤ 0x7F
  · rw [if_pos h1]
    have : n < 0x80 := by omega
    simp [stdUtf8Decode, this]
  rw [if_neg h1]
  by_cases h2 : n ≤ 0x7FF
  · rw [if_pos h2]
    have a1 : ¬ (192 + n / 64 < 0x80) := by omega
    have a2 : 0xC2 ≤ 192 + n / 64 ∧ 192 + n / 64 ≤ 0xDF := by omega
    have a3 : 0x80 ≤ 128 + n % 64 ∧ 128 + n % 64 ≤ 0xBF := by omega
    have a4 : (192 + n / 64) % 32 * 64 + (128 + n % 64) % 64 = n := by omega
    simp only [stdUtf8Decode, isUtf8Cont, if_neg a1, if_pos a2, a3, a4, decide_True,
      if_true, and_self, List.length_cons, List.length_nil]
  rw [if_neg h2]
  by_cases h3 : n ≤ 0xFFFF
  · rw [if_pos h3]
    have a1 : ¬ (224 + n / 4096 < 0x80) := by omega
    have a2 : ¬ (0xC2 ≤ 224 + n / 4096 ∧ 224 + n / 4096 ≤ 0xDF) := by omega
    have a3 : 0xE0 ≤ 224 + n / 4096 ∧ 224 + n / 4096 ≤ 0xEF := by omega
    have a4 : 0x80 ≤ 128 + n / 64 % 64 ∧ 128 + n / 64 % 64 ≤ 0xBF := by omega
    have a5 : 0x80 ≤ 128 + n % 64 ∧ 128 + n % 64 ≤ 0xBF := by omega
    have a6 : (224 + n / 4096) % 16 * 4096 + (128 + n / 64 % 64) % 64 * 64 +
        (128 + n % 64) % 64 = n := by omega
    have a7 : 0x800 ≤ n ∧ ¬ (0xD800 ≤ n ∧ n ≤ 0xDFFF) := ⟨by omega, hs⟩
    simp only [stdUtf8Decode, isUtf8Cont, if_neg a1, if_neg a2, if_pos a3, a4, a5, a6, a7,
      decide_True, not_false_eq_true, if_true, and_self, List.length_cons,
      List.length_nil]
  rw [if_neg h3]
  have a1 : ¬ (240 + n / 262144 < 0x80) := by omega
  have a2 : ¬ (0xC2 ≤ 240 + n / 262144 ∧ 240 + n / 262144 ≤ 0xDF) := by omega
  have a3 : ¬ (0xE0 ≤ 240 + n / 262144 ∧ 240 + n / 262144 ≤ 0xEF) := by omega
  have a4 : 0xF0 ≤ 240 + n / 262144 ∧ 240 + n / 262144 ≤ 0xF4 := by omega
  have a5 : 0x80 ≤ 128 + n / 4096 % 64 ∧ 128 + n / 4096 % 64 ≤ 0xBF := by omega
  have a6 : 0x80 ≤ 128 + n / 64 % 64 ∧ 128 + n / 64 % 64 ≤ 0xBF := by omega
  have a7 : 0x80 ≤ 128 + n % 64 ∧ 128 + n % 64 ≤ 0xBF := by omega
  have a8 : (240 + n / 262144) % 8 * 262144 + (128 + n / 4096 % 64) % 64 * 4096 +
      (128 + n / 64 % 64) % 64 * 64 + (128 + n % 64) % 64 = n := by omega
  have a9 : 0x10000 ≤ n ∧ n ≤ 0x10FFFF := by omega
  simp only [stdUtf8Decode, isUtf8Cont, if_neg a1, if_neg a2, if_neg a3, if_pos a4, a5,
    a6, a7, a8, a9, decide_True, if_true, and_self, List.length_cons, List.length_nil]

/-- C8 witness: U+20AC is encoded as `E2 82 AC`, which decodes to U+20AC with
three bytes consumed. -/
theorem unicodeRuneToUtf8_roundtrip_witness :
    unicodeRuneToUtf8 0x20AC = [0xE2, 0x82, 0xAC] ∧
    stdUtf8Decode (unicodeRuneToUtf8 ((0x20AC : Nat) : Int)) =
      some (0x20AC, (unicodeRuneToUtf8 ((0x20AC : Nat) : Int)).length) :=
  ⟨by decide, unicodeRuneToUtf8_roundtrip 0x20AC (by decide) (by decide)⟩

/-- C9: for every value `s` in `[0, 0x10FFFF]`, `unicodeRuneToUtf8 s` is the
standard UTF-8 bit layout: `[s]` up to `0x7F`; `[0xC0 | s>>6, 0x80 | s&0x3F]`
up to `0x7FF`; `[0xE0 | s>>12, 0x80 | (s>>6)&0x3F, 0x80 | s&0x3F]` up to
`0xFFFF`; `[0xF0 | s>>18, 0x80 | (s>>12)&0x3F, 0x80 | (s>>6)&0x3F,
0x80 | s&0x3F]` up to `0x10FFFF`. -/
theorem unicodeRuneToUtf8_standard_layout (s : Nat) (hs : s ≤ 0x10FFFF) :
    unicodeRuneToUtf8 (s : Int) =
      if s ≤ 0x7F then [s]
      else if s ≤ 0x7FF then [0xC0 ||| (s >>> 6), 0x80 ||| (s &&& 0x3F)]
      else if s ≤ 0xFFFF then
        [0xE0 ||| (s >>> 12), 0x80 ||| ((s >>> 6) &&& 0x3F), 0x80 ||| (s &&& 0x3F)]
      else
        [0xF0 ||| (s >>> 18), 0x80 ||| ((s >>> 12) &&& 0x3F),
          0x80 ||| ((s >>> 6) &&& 0x3F), 0x80 ||| (s &&& 0x3F)] :=
  unicodeRuneToUtf8_eq_layout s hs

/-- C9 witness: U+1F600 is encoded as the four bytes `F0 9F 98 80`. -/
theorem unicodeRuneToUtf8_standard_layout_witness :
    unicodeRuneToUtf8 ((0x1F600 : Nat) : Int) = [0xF0, 0x9F, 0x98, 0x80] :=
  (unicodeRuneToUtf8_standard_layout 0x1F600 (by decide)).trans (by decide)

/-- C10, as stated, fails: the surrogate value `0xD800` is encoded as the
three bytes `ED A0 80`, which is neither the empty result nor the encoding
`EF BF BD` of U+FFFD. -/
theorem unicodeRuneToUtf8_surrogate_not_invalid :
    unicodeRuneToUtf8 0xD800 = [0xED, 0xA0, 0x80] ∧
    unicodeRuneToUtf8 0xFFFD = [0xEF, 0xBF, 0xBD] ∧
    ¬ (unicodeRuneToUtf8 0xD800 = [] ∨
       unicodeRuneToUtf8 0xD800 = unicodeRuneToUtf8 0xFFFD) := by
  decide

/-- C10, amended: a value greater than `0x10FFFF` yields no bytes; a
surrogate value in `[0xD800, 0xDFFF]` is encoded like any other value of
`[0x800, 0xFFFF]`, as `[0xED, 0x80 | (u>>6)&0x3F, 0x80 | u&0x3F]`. -/
theorem unicodeRuneToUtf8_out_of_range (u : Int) :
    (0x10FFFF < u → unicodeRuneToUtf8 u = []) ∧
    (0xD800 ≤ u ∧ u ≤ 0xDFFF →
      unicodeRuneToUtf8 u =
        [0xED, 0x80 ||| ((u.toNat >>> 6) &&& 0x3F), 0x80 ||| (u.toNat &&& 0x3F)]) := by
  constructor
  · intro h
    unfold unicodeRuneToUtf8
    rw [if_neg (by omega), if_neg (by omega), if_neg (by omega), if_neg (by omega)]
  · rintro ⟨h1, h2⟩
    obtain ⟨n, rfl⟩ := Int.eq_ofNat_of_zero_le (by omega : 0 ≤ u)
    have hn1 : 0xD800 ≤ n := by omega
    have hn2 : n ≤ 0xDFFF := by omega
    rw [unicodeRuneToUtf8_eq_layout n (by omega), Int.toNat_ofNat]
    unfold utf8Layout
    have h12 : n >>> 12 = 13 := by rw [Nat.shiftRight_eq_div_pow]; omega
    rw [if_neg (by omega), if_neg (by omega), if_pos (by omega), h12]
    rfl

/-- C10 witness: `0x110000` yields no bytes and `0xDFFF` yields `ED BF BF`. -/
theorem unicodeRuneToUtf8_out_of_range_witness :
    unicodeRuneToUtf8 0x110000 = [] ∧ unicodeRuneToUtf8 0xDFFF = [0xED, 0xBF, 0xBF] :=
  ⟨(unicodeRuneToUtf8_out_of_range 0x110000).1 (by decide),
   ((unicodeRuneToUtf8_out_of_range 0xDFFF).2 (by decide)).trans (by decide)⟩

/-! ### The sample string functions -/

theorem upper_bounds (c : Char) (h : 'A' ≤ c ∧ c ≤ 'Z') :
    65 ≤ c.toNat ∧ c.toNat ≤ 90 := by
  obtain ⟨h1, h2⟩ := h
  rw [Char.le_def] at h1 h2
  exact ⟨h1, h2⟩

theorem ofNat_lower : ∀ n, 65 ≤ n → n ≤ 90 →
    Char.ofNat (n + 32) ≠ ' ' ∧
    ¬ ('A' ≤ Char.ofNat (n + 32) ∧ Char.ofNat (n + 32) ≤ 'Z') := by
  intro n h1 h2
  interval_cases n <;> decide

theorem lower_blank (c : Char) :
    decide ((if 'A' ≤ c ∧ c ≤ 'Z' then Char.ofNat (c.toNat + 32) else c) = ' ') =
      decide (c = ' ') := by
  by_cases h : 'A' ≤ c ∧ c ≤ 'Z'
  · rw [if_pos h]
    obtain ⟨b1, b2⟩ := upper_bounds c h
    have h1 := (ofNat_lower c.toNat b1 b2).1
    have h2 : c ≠ ' ' := by
      intro h3
      rw [h3] at b1
      exact absurd b1 (by decide)
    simp [h1, h2]
  · rw [if_neg h]

theorem lower_idem (c : Char) :
    (fun c : Char => if 'A' ≤ c ∧ c ≤ 'Z' then Char.ofNat (c.toNat + 32) else c)
      ((fun c : Char => if 'A' ≤ c ∧ c ≤ 'Z' then Char.ofNat (c.toNat + 32) else c) c) =
    (fun c : Char => if 'A' ≤ c ∧ c ≤ 'Z' then Char.ofNat (c.toNat + 32) else c) c := by
  dsimp only
  by_cases h : 'A' ≤ c ∧ c ≤ 'Z'
  · rw [if_pos h]
    obtain ⟨b1, b2⟩ := upper_bounds c h
    rw [if_neg (ofNat_lower c.toNat b1 b2).2]
  · rw [if_neg h, if_neg h]

theorem trim_trim {α : Type} (p : α → Bool) (m : List α) :
    (((((m.dropWhile p).reverse.dropWhile p).reverse).dropWhile p).reverse.dropWhile
        p).reverse =
      ((m.dropWhile p).reverse.dropWhile p).reverse := by
  have ht : ∀ x : List α, (x.reverse.dropWhile p).reverse = x.rdropWhile p := fun _ => rfl
  rw [ht, ht]
  have h1 : ((m.dropWhile p).rdropWhile p).dropWhile p = (m.dropWhile p).rdropWhile p := by
    rw [List.dropWhile_eq_self_iff]
    intro hl
    have hpre := List.rdropWhile_prefix p (m.dropWhile p)
    have hl2 : 0 < (m.dropWhile p).length := Nat.lt_of_lt_of_le hl hpre.length_le
    have hnot := List.dropWhile_get_zero_not p m hl2
    have heq := hpre.getElem hl
    simp only [List.get_eq_getElem] at hnot ⊢
    rw [heq]
    exact hnot
  rw [h1, List.rdropWhile_idempotent]

theorem trim_map {α : Type} (f : α → α) (p : α → Bool) (hp : ∀ c, p (f c) = p c)
    (m : List α) :
    (((m.map f).dropWhile p).reverse.dropWhile p).reverse =
      (((m.dropWhile p).reverse.dropWhile p).reverse).map f := by
  have hpf : p ∘ f = p := funext hp
  rw [List.dropWhile_map, hpf, ← List.map_reverse, List.dropWhile_map, hpf,
    ← List.map_reverse]

/-- The sample normalisation (trim, then lowercase) changes nothing when
applied a second time. -/
theorem asciiNorm_idem (s : String) :
    asciiLower (asciiTrim (asciiLower (asciiTrim s))) = asciiLower (asciiTrim s) := by
  unfold asciiLower asciiTrim
  dsimp only
  congr 1
  rw [trim_map _ _ lower_blank, trim_trim, List.map_map]
  apply List.map_congr_left
  intro c _
  exact lower_idem c

/-! ### charset.go: name resolution -/

/-- Outside the UTF-32 aliases `GetEncodingFromCharsetName` is the registry
lookup at the label with the `gb18030` aliases replaced. -/
theorem getEncoding_eq_lookup {Enc : Type} (env : Env Enc) (name : String)
    (h32 : env.toLower (env.trimSpace name) ∉
      ["utf-32-le", "utf_32_le", "utf-32_le", "utf_32-le", "utf32le", "utf-32le",
        "utf32-le", "utf_32le", "utf32_le", "utf-32-be", "utf_32_be", "utf-32_be",
        "utf_32-be", "utf32be", "utf-32be", "utf32-be", "utf_32be", "utf32_be"]) :
    GetEncodingFromCharsetName env name =
      lookupRegistries env
        (if env.toLower (env.trimSpace name) ∈ ["gb-18030", "gb_18030", "gb 18030"]
          then "gb18030" else env.toLower (env.trimSpace name)) := by
  unfold GetEncodingFromCharsetName
  dsimp only
  generalize env.toLower (env.trimSpace name) = n at h32 ⊢
  simp only [List.mem_cons, List.mem_singleton, List.not_mem_nil, or_false, not_or] at h32 ⊢
  obtain ⟨a1, a2, a3, a4, a5, a6, a7, a8, a9, b1, b2, b3, b4, b5, b6, b7, b8, b9⟩ := h32
  by_cases hg : n = "gb-18030" ∨ n = "gb_18030" ∨ n = "gb 18030"
  · rw [if_pos hg, if_pos hg]
  · rw [if_neg hg, if_neg hg, if_neg (by simp [a1, a2, a3, a4, a5, a6, a7, a8, a9]),
      if_neg (by simp [b1, b2, b3, b4, b5, b6, b7, b8, b9])]

theorem lookupMissed_iff {Enc : Type} (r : Option Enc × Option Err) :
    lookupMissed r = true ↔ (r.2 ≠ none ∨ r.1 = none) := by
  obtain ⟨e, err⟩ := r
  cases e <;> cases err <;> simp [lookupMissed]

theorem lookupRegistries_html {Enc : Type} (env : Env Enc) (key : String)
    (h : lookupMissed (env.htmlGet key) = false) :
    lookupRegistries env key = env.htmlGet key := by
  unfold lookupRegistries
  simp [h]

theorem lookupRegistries_iana {Enc : Type} (env : Env Enc) (key : String)
    (h : lookupMissed (env.htmlGet key) = true)
    (h2 : lookupMissed (env.ianaEncoding key) = false) :
    lookupRegistries env key = env.ianaEncoding key := by
  unfold lookupRegistries
  simp [h, h2]

theorem lookupRegistries_miss {Enc : Type} (env : Env Enc) (key : String)
    (h : lookupMissed (env.htmlGet key) = true)
    (h2 : lookupMissed (env.ianaEncoding key) = true) :
    lookupRegistries env key = ((env.ianaEncoding key).1, some Err.errInvalidName) := by
  unfold lookupRegistries
  simp [h, h2]

theorem lookupMissed_hit {Enc : Type} (r : Option Enc × Option Err)
    (h : lookupMissed r = false) : ∃ e, r = (some e, none) := by
  obtain ⟨e, err⟩ := r
  cases e <;> cases err <;> simp [lookupMissed] at h ⊢

/-- A registry lookup either fails with `errInvalidName` or yields an encoding
and no error. -/
theorem lookupRegistries_cases {Enc : Type} (env : Env Enc) (key : String) :
    (lookupRegistries env key).2 = some Err.errInvalidName ∨
    ∃ e, lookupRegistries env key = (some e, none) := by
  cases h : lookupMissed (env.htmlGet key)
  · right
    rw [lookupRegistries_html env key h]
    exact lookupMissed_hit _ h
  · cases h2 : lookupMissed (env.ianaEncoding key)
    · right
      rw [lookupRegistries_iana env key h h2]
      exact lookupMissed_hit _ h2
    · left
      rw [lookupRegistries_miss env key h h2]

/-- C20: for a label that, trimmed and lowercased, is not a UTF-32 alias,
with `key` the label after the `gb18030` aliases are replaced:
`GetEncodingFromCharsetName` returns the HTML registry's encoding when that
registry finds a non-nil encoding, otherwise the IANA registry's when that
finds one; it fails exactly when both miss (error or nil encoding), and then
the error is `errInvalidName`. -/
theorem GetEncodingFromCharsetName_registry_order {Enc : Type} (env : Env Enc)
    (name key : String)
    (h32 : env.toLower (env.trimSpace name) ∉
      ["utf-32-le", "utf_32_le", "utf-32_le", "utf_32-le", "utf32le", "utf-32le",
        "utf32-le", "utf_32le", "utf32_le", "utf-32-be", "utf_32_be", "utf-32_be",
        "utf_32-be", "utf32be", "utf-32be", "utf32-be", "utf_32be", "utf32_be"])
    (hkey : key =
      if env.toLower (env.trimSpace name) ∈ ["gb-18030", "gb_18030", "gb 18030"]
        then "gb18030" else env.toLower (env.trimSpace name)) :
    (∀ e, env.htmlGet key = (some e, none) →
      GetEncodingFromCharsetName env name = (some e, none)) ∧
    (((env.htmlGet key).2 ≠ none ∨ (env.htmlGet key).1 = none) →
      ∀ e, env.ianaEncoding key = (some e, none) →
        GetEncodingFromCharsetName env name = (some e, none)) ∧
    ((GetEncodingFromCharsetName env name).2 ≠ none ↔
      ((env.htmlGet key).2 ≠ none ∨ (env.htmlGet key).1 = none) ∧
      ((env.ianaEncoding key).2 ≠ none ∨ (env.ianaEncoding key).1 = none)) ∧
    ((GetEncodingFromCharsetName env name).2 ≠ none →
      (GetEncodingFromCharsetName env name).2 = some Err.errInvalidName) := by
  rw [getEncoding_eq_lookup env name h32, ← hkey]
  refine ⟨?_, ?_, ?_, ?_⟩
  · intro e he
    have hm : lookupMissed (env.htmlGet key) = false := by rw [he]; rfl
    rw [lookupRegistries_html env key hm, he]
  · intro hmiss e he
    have hm : lookupMissed (env.htmlGet key) = true := (lookupMissed_iff _).mpr hmiss
    have hm2 : lookupMissed (env.ianaEncoding key) = false := by rw [he]; rfl
    rw [lookupRegistries_iana env key hm hm2, he]
  · rw [← lookupMissed_iff, ← lookupMissed_iff]
    cases h : lookupMissed (env.htmlGet key)
    · obtain ⟨e, he⟩ := lookupMissed_hit _ h
      rw [lookupRegistries_html env key h, he]
      simp
    · cases h2 : lookupMissed (env.ianaEncoding key)
      · obtain ⟨e, he⟩ := lookupMissed_hit _ h2
        rw [lookupRegistries_iana env key h h2, he]
        simp
      · rw [lookupRegistries_miss env key h h2]
        simp
  · intro hne
    rcases lookupRegistries_cases env key with hc | ⟨e, he⟩
    · exact hc
    · rw [he] at hne
      exact absurd rfl hne

/-- C20 witness: in the sample environment `" GB-18030 "` is looked up as
`gb18030` and found in the HTML registry; `US-ASCII` is missed there and found
in the IANA registry; `IBM424_rtl` and `klingon` are missed by both. -/
theorem GetEncodingFromCharsetName_registry_order_witness :
    GetEncodingFromCharsetName sampleEnv " GB-18030 " = (some SampleEnc.gb18030, none) ∧
    GetEncodingFromCharsetName sampleEnv "US-ASCII" = (some SampleEnc.ascii, none) ∧
    (GetEncodingFromCharsetName sampleEnv "IBM424_rtl").2 = some Err.errInvalidName ∧
    (GetEncodingFromCharsetName sampleEnv "klingon").2 = some Err.errInvalidName :=
  ⟨(GetEncodingFromCharsetName_registry_order sampleEnv " GB-18030 " "gb18030"
      (by decide) (by decide)).1 SampleEnc.gb18030 (by decide),
   (GetEncodingFromCharsetName_registry_order sampleEnv "US-ASCII" "us-ascii"
      (by decide) (by decide)).2.1 (by decide) SampleEnc.ascii (by decide),
   (GetEncodingFromCharsetName_registry_order sampleEnv "IBM424_rtl" "ibm424_rtl"
      (by decide) (by decide)).2.2.2
      (((GetEncodingFromCharsetName_registry_order sampleEnv "IBM424_rtl" "ibm424_rtl"
        (by decide) (by decide)).2.2.1).mpr (by decide)),
   (GetEncodingFromCharsetName_registry_order sampleEnv "klingon" "klingon"
      (by decide) (by decide)).2.2.2
      (((GetEncodingFromCharsetName_registry_order sampleEnv "klingon" "klingon"
        (by decide) (by decide)).2.2.1).mpr (by decide))⟩

theorem getEncoding_cases {Enc : Type} (env : Env Enc) (name : String) :
    (GetEncodingFromCharsetName env name).2 = some Err.errInvalidName ∨
    ∃ e, GetEncodingFromCharsetName env name = (some e, none) := by
  unfold GetEncodingFromCharsetName
  dsimp only
  split_ifs
  · exact lookupRegistries_cases env _
  · exact Or.inr ⟨_, rfl⟩
  · exact Or.inr ⟨_, rfl⟩
  · exact lookupRegistries_cases env _

/-- `GetDecoderFromCharsetName` never panics: it fails with `errInvalidName`
or returns the decoder of the encoding found. -/
theorem getDecoder_cases {Enc : Type} (env : Env Enc) (name : String) :
    GetDecoderFromCharsetName env name = some (.error Err.errInvalidName) ∨
    ∃ e, GetEncodingFromCharsetName env name = (some e, none) ∧
      GetDecoderFromCharsetName env name = some (.ok (env.newDecoder e)) := by
  unfold GetDecoderFromCharsetName
  rcases getEncoding_cases env name with h | ⟨e, he⟩
  · left
    generalize GetEncodingFromCharsetName env name = r at h
    obtain ⟨e, err⟩ := r
    simp only at h
    subst h
    cases e <;> rfl
  · right
    exact ⟨e, he, by rw [he]⟩

/-! ### charset.go: conversion -/

/-- C16: `GetDecoderFromCharsetName` either resolves the name or fails; when
it fails `ToUtf8WithCharsetName` returns the content unmodified with
`errInvalidName`, and when it resolves to `d` it returns what
`ToUtf8WithDecoder content d` returns. -/
theorem ToUtf8WithCharsetName_by_resolution {Enc : Type} (env : Env Enc)
    (content : List Nat) (name : String) :
    ((∃ d, GetDecoderFromCharsetName env name = some (.ok d)) ∨
      (∃ err, GetDecoderFromCharsetName env name = some (.error err))) ∧
    (∀ err, GetDecoderFromCharsetName env name = some (.error err) →
      ToUtf8WithCharsetName env content name = some (content, some Err.errInvalidName)) ∧
    (∀ d, GetDecoderFromCharsetName env name = some (.ok d) →
      ToUtf8WithCharsetName env content name = some (ToUtf8WithDecoder content d)) := by
  refine ⟨?_, ?_, ?_⟩
  · rcases getDecoder_cases env name with h | ⟨e, _, h⟩
    · exact Or.inr ⟨_, h⟩
    · exact Or.inl ⟨_, h⟩
  · intro err herr
    rcases getDecoder_cases env name with h | ⟨e, _, h⟩
    · unfold ToUtf8WithCharsetName
      rw [h]
    · rw [h] at herr
      cases herr
  · intro d hd
    unfold ToUtf8WithCharsetName
    rw [hd]

/-- C16 witness: in the sample environment `klingon` does not resolve and the
bytes `41 E9` come back with `errInvalidName`; `" ISO-8859-1 "` resolves and
the bytes are converted to `41 C3 A9`. -/
theorem ToUtf8WithCharsetName_by_resolution_witness :
    ToUtf8WithCharsetName sampleEnv [0x41, 0xE9] "klingon" =
      some ([0x41, 0xE9], some Err.errInvalidName) ∧
    ToUtf8WithCharsetName sampleEnv [0x41, 0xE9] " ISO-8859-1 " =
      some ([0x41, 0xC3, 0xA9], none) :=
  ⟨(ToUtf8WithCharsetName_by_resolution sampleEnv [0x41, 0xE9] "klingon").2.1
      Err.errInvalidName rfl,
   ((ToUtf8WithCharsetName_by_resolution sampleEnv [0x41, 0xE9] " ISO-8859-1 ").2.2
      (sampleNewDecoder SampleEnc.latin1) rfl).trans (by decide)⟩

/-- C17: `ToUtf8WithDecoder` fails exactly when the decoder reports an error
on the input; the error returned is then `errWrongDecoder` (with nil bytes),
whatever the decoder's error was; with no decoder error the result is the
decoder's output and a nil error. -/
theorem ToUtf8WithDecoder_error_collapse (content : List Nat) (d : Decoder) :
    ((ToUtf8WithDecoder content d).2 ≠ none ↔ (d content).2 ≠ none) ∧
    ((d content).2 ≠ none →
      ToUtf8WithDecoder content d = ([], some Err.errWrongDecoder)) ∧
    ((d content).2 = none → ToUtf8WithDecoder content d = ((d content).1, none)) := by
  unfold ToUtf8WithDecoder
  dsimp only
  by_cases h : (d content).2 ≠ none
  · rw [if_pos h]
    exact ⟨⟨fun _ => h, fun _ => by simp⟩, fun _ => rfl, fun h2 => absurd h2 h⟩
  · rw [if_neg h]
    exact ⟨⟨fun h2 => absurd rfl h2, fun h2 => absurd h2 h⟩, fun h2 => absurd h2 h,
      fun _ => rfl⟩

/-- C17 witness: the sample ASCII decoder stops at `FF` with its own error
after producing `41`, and `ToUtf8WithDecoder` returns `errWrongDecoder`; the
sample Latin-1 decoder reports no error and its output is returned. -/
theorem ToUtf8WithDecoder_error_collapse_witness :
    sampleNewDecoder SampleEnc.ascii [0x41, 0xFF] =
      ([0x41], some (Err.external "encoding: rune not supported by encoding.")) ∧
    ToUtf8WithDecoder [0x41, 0xFF] (sampleNewDecoder SampleEnc.ascii) =
      ([], some Err.errWrongDecoder) ∧
    ToUtf8WithDecoder [0x41, 0xE9] (sampleNewDecoder SampleEnc.latin1) =
      ([0x41, 0xC3, 0xA9], none) :=
  ⟨by decide,
   (ToUtf8WithDecoder_error_collapse [0x41, 0xFF] (sampleNewDecoder SampleEnc.ascii)).2.1
      (by decide),
   ((ToUtf8WithDecoder_error_collapse [0x41, 0xE9]
      (sampleNewDecoder SampleEnc.latin1)).2.2 (by decide)).trans (by decide)⟩

/-! ### charset.go: detection -/

theorem detectAllLoop_spec {Enc : Type} (env : Env Enc) :
    ∀ (cands : List Candidate) (acc : List Result),
      ∃ results, DetectAllLoop env cands acc = some (acc ++ results) ∧
        List.Forall₂ (IsResultOf env) cands results
  | [], acc => ⟨[], by simp [DetectAllLoop], List.Forall₂.nil⟩
  | c :: rest, acc => by
    rcases getDecoder_cases env c.Charset with h | ⟨e, _, h⟩
    · obtain ⟨results, hloop, hall⟩ := detectAllLoop_spec env rest
        (acc ++ [⟨c.Charset, c.Language, c.Confidence, nopDecoder, false⟩])
      refine ⟨⟨c.Charset, c.Language, c.Confidence, nopDecoder, false⟩ :: results, ?_,
        List.Forall₂.cons ⟨rfl, rfl, rfl, Or.inr ⟨⟨_, h⟩, rfl, rfl⟩⟩ hall⟩
      rw [DetectAllLoop, h]
      simpa using hloop
    · obtain ⟨results, hloop, hall⟩ := detectAllLoop_spec env rest
        (acc ++ [⟨c.Charset, c.Language, c.Confidence, env.newDecoder e, true⟩])
      refine ⟨⟨c.Charset, c.Language, c.Confidence, env.newDecoder e, true⟩ :: results, ?_,
        List.Forall₂.cons ⟨rfl, rfl, rfl, Or.inl ⟨_, h, rfl, rfl⟩⟩ hall⟩
      rw [DetectAllLoop, h]
      simpa using hloop

theorem detectAll_spec {Enc : Type} (env : Env Enc) (content : List Nat) :
    ∃ results, DetectAll env content = some (results, (env.detectAll content).2) ∧
      List.Forall₂ (IsResultOf env) (env.detectAll content).1 results := by
  obtain ⟨results, hloop, hall⟩ := detectAllLoop_spec env (env.detectAll content).1 []
  refine ⟨results, ?_, hall⟩
  unfold DetectAll
  dsimp only
  rw [hloop]
  rfl

theorem forall2_confidence {Enc : Type} (env : Env Enc) :
    ∀ (cands : List Candidate) (results : List Result),
      List.Forall₂ (IsResultOf env) cands results →
        results.map (fun r => r.Confidence) = cands.map (fun c => c.Confidence)
  | _, _, List.Forall₂.nil => rfl
  | _, _, List.Forall₂.cons h t => by
    rw [List.map_cons, List.map_cons, h.2.2.1, forall2_confidence env _ _ t]

/-- C18: `DetectAll` returns one result per candidate of the detector, in the
detector's order, each with the candidate's charset, language and confidence;
a result is convertible with the resolved decoder when
`GetDecoderFromCharsetName` succeeds on its charset and is otherwise not
convertible with the no-op decoder; no candidate is dropped and no candidate
gives no result; the detector's error is returned with the list. -/
theorem DetectAll_one_result_per_candidate {Enc : Type} (env : Env Enc)
    (content : List Nat) :
    ∃ results, DetectAll env content = some (results, (env.detectAll content).2) ∧
      List.Forall₂ (IsResultOf env) (env.detectAll content).1 results ∧
      results.length = (env.detectAll content).1.length ∧
      ((env.detectAll content).1 = [] → results = []) := by
  obtain ⟨results, h, hall⟩ := detectAll_spec env content
  refine ⟨results, h, hall, hall.length_eq.symm, ?_⟩
  intro hnil
  rw [hnil] at hall
  cases hall
  rfl

/-- C18 witness: on `FE` the sample detector returns no candidate and
`DetectAll` returns the empty list. -/
theorem DetectAll_one_result_per_candidate_witness :
    ∃ results, DetectAll sampleEnv [0xFE] = some (results, none) ∧ results = [] :=
  let ⟨results, h, _, _, hnil⟩ := DetectAll_one_result_per_candidate sampleEnv [0xFE]
  ⟨results, h, hnil rfl⟩

theorem detectEncoding_of_results {Enc : Type} (env : Env Enc) (content : List Nat)
    (top : Result) (rest : List Result)
    (h : DetectAll env content = some (top :: rest, none)) :
    DetectEncoding env content = some (some top, none) := by
  unfold DetectEncoding
  rw [h]
  rfl

/-- C19: when the detector succeeds with candidates ordered by confidence
descending, the list of `DetectAll` is ordered by confidence descending, and
(with at least one candidate) `DetectEncoding` returns a result whose
confidence is at least that of every result of `DetectAll`. -/
theorem DetectAll_sorted_DetectEncoding_top {Enc : Type} (env : Env Enc)
    (content : List Nat) (cands : List Candidate)
    (hdet : env.detectAll content = (cands, none))
    (hsorted : cands.Pairwise (fun a b => a.Confidence ≥ b.Confidence)) :
    ∃ results, DetectAll env content = some (results, none) ∧
      results.Pairwise (fun a b => a.Confidence ≥ b.Confidence) ∧
      (cands ≠ [] → ∃ top, DetectEncoding env content = some (some top, none) ∧
        ∀ r ∈ results, r.Confidence ≤ top.Confidence) := by
  obtain ⟨results, h, hall⟩ := detectAll_spec env content
  rw [hdet] at h hall
  have hconf := forall2_confidence env cands results hall
  have hs : results.Pairwise (fun a b => a.Confidence ≥ b.Confidence) := by
    have h1 : (cands.map (fun c => c.Confidence)).Pairwise (fun a b => a ≥ b) :=
      List.pairwise_map.mpr hsorted
    rw [← hconf] at h1
    exact List.pairwise_map.mp h1
  refine ⟨results, h, hs, ?_⟩
  intro hne
  match results, h, hall, hs with
  | [], _, hall, _ =>
    cases hall
    exact absurd rfl hne
  | top :: rest, h, _, hs =>
    refine ⟨top, detectEncoding_of_results env content top rest h, ?_⟩
    intro r hr
    rcases List.mem_cons.mp hr with rfl | hr
    · exact le_refl _
    · exact (List.pairwise_cons.mp hs).1 r hr

/-- C19 witness: on `C3 A9` the sample detector returns confidences 80, 20, 5;
`DetectAll` keeps that order and `DetectEncoding` returns a result of
confidence at least that of each. -/
theorem DetectAll_sorted_DetectEncoding_top_witness :
    ∃ results, DetectAll sampleEnv [0xC3, 0xA9] = some (results, none) ∧
      results.Pairwise (fun a b => a.Confidence ≥ b.Confidence) ∧
      ∃ top, DetectEncoding sampleEnv [0xC3, 0xA9] = some (some top, none) ∧
        ∀ r ∈ results, r.Confidence ≤ top.Confidence :=
  let ⟨results, h, hs, htop⟩ := DetectAll_sorted_DetectEncoding_top sampleEnv [0xC3, 0xA9]
    [⟨"UTF-8", "", 80⟩, ⟨"ISO-8859-1", "fr", 20⟩, ⟨"IBM424_rtl", "he", 5⟩] rfl
    (by simp [List.pairwise_cons])
  ⟨results, h, hs, htop (by simp)⟩

theorem detectEncoding_err_nil {Enc : Type} (env : Env Enc) (content : List Nat)
    (res : Option Result) (err : Option Err)
    (h : DetectEncoding env content = some (res, err)) : err = none := by
  unfold DetectEncoding at h
  obtain ⟨results, hall, _⟩ := detectAll_spec env content
  rw [hall] at h
  dsimp only at h
  by_cases he : (env.detectAll content).2 = none
  · rw [if_pos he] at h
    cases results with
    | nil => cases h
    | cons r0 rest =>
      simp only [Option.some.injEq, Prod.mk.injEq] at h
      exact h.2.symm
  · rw [if_neg he] at h
    simp only [Option.some.injEq, Prod.mk.injEq] at h
    exact h.2.symm

/-- When the detector reports an error, `DetectEncoding` returns a nil result
and a nil error, and `DetectAndConvertToUtf8` dereferences the nil result. -/
theorem detectEncoding_of_detector_error {Enc : Type} (env : Env Enc)
    (content : List Nat) (h : (env.detectAll content).2 ≠ none) :
    DetectEncoding env content = some (none, none) ∧
    DetectAndConvertToUtf8 env content = none := by
  have h1 : DetectEncoding env content = some (none, none) := by
    unfold DetectEncoding
    obtain ⟨results, hall, _⟩ := detectAll_spec env content
    rw [hall]
    dsimp only
    rw [if_neg h]
  refine ⟨h1, ?_⟩
  unfold DetectAndConvertToUtf8
  rw [h1]
  rfl

theorem toUtf8WithDecoder_cases (content : List Nat) (d : Decoder) :
    ToUtf8WithDecoder content d = ([], some Err.errWrongDecoder) ∨
    ToUtf8WithDecoder content d = ((d content).1, none) := by
  unfold ToUtf8WithDecoder
  dsimp only
  by_cases h : (d content).2 ≠ none
  · rw [if_pos h]; exact Or.inl rfl
  · rw [if_neg h]; exact Or.inr rfl

/-- A result of `DetectAndConvertToUtf8` is either the content with the
verdict of `DetectEncoding` and no error, or what `ToUtf8WithDecoder` returns
for the decoder of the verdict returned. -/
theorem detectAndConvert_cases {Enc : Type} (env : Env Enc) (content : List Nat)
    (t : List Nat × Option Result × Option Err)
    (h : DetectAndConvertToUtf8 env content = some t) :
    ∃ r, DetectEncoding env content = some (some r, none) ∧
      (t = (content, some r, none) ∨
        ∃ r2 : Result, t = ((ToUtf8WithDecoder content r2.Decoder).1, some r2,
          (ToUtf8WithDecoder content r2.Decoder).2)) := by
  unfold DetectAndConvertToUtf8 at h
  cases hd : DetectEncoding env content with
  | none => rw [hd] at h; cases h
  | some p =>
    obtain ⟨res, err⟩ := p
    have herr := detectEncoding_err_nil env content res err hd
    subst herr
    rw [hd] at h
    dsimp only at h
    rw [if_neg (by simp)] at h
    cases res with
    | none => cases h
    | some r =>
      refine ⟨r, rfl, ?_⟩
      dsimp only at h
      split_ifs at h
      all_goals first
        | exact Or.inl (Option.some.inj h).symm
        | exact Or.inr ⟨_, (Option.some.inj h).symm⟩

/-- C12: when the top detection result is not convertible, or its charset
label lowercased is empty, `unknown`, `utf-8` or `utf8`,
`DetectAndConvertToUtf8` returns the input bytes, that verdict and no error. -/
theorem DetectAndConvertToUtf8_passthrough {Enc : Type} (env : Env Enc)
    (content : List Nat) (r : Result)
    (hres : DetectEncoding env content = some (some r, none))
    (h : r.Convertible = false ∨ env.toLower r.Charset = "" ∨
      env.toLower r.Charset = "unknown" ∨ env.toLower r.Charset = "utf-8" ∨
      env.toLower r.Charset = "utf8") :
    DetectAndConvertToUtf8 env content = some (content, some r, none) := by
  unfold DetectAndConvertToUtf8
  rw [hres]
  dsimp only
  rw [if_neg (by simp)]
  by_cases hc : r.Convertible = false
  · rw [if_pos hc]
  · rw [if_neg hc]
    rcases h with h | h | h | h | h
    · exact absurd h hc
    · rw [if_pos (Or.inl h)]
    · rw [if_pos (Or.inr h)]
    · rw [h, if_neg (by decide), if_pos (Or.inl rfl)]
    · rw [h, if_neg (by decide), if_pos (Or.inr rfl)]

/-- C12 witness: on `81 7F` the sample top result `GB2312` is not convertible,
and on `C3 A9` the sample top result is `UTF-8`; the bytes come back
unchanged with the verdict and no error. -/
theorem DetectAndConvertToUtf8_passthrough_witness :
    summary (DetectAndConvertToUtf8 sampleEnv [0x81, 0x7F]) =
      some ([0x81, 0x7F], some ("GB2312", 95, false), none) ∧
    summary (DetectAndConvertToUtf8 sampleEnv [0xC3, 0xA9]) =
      some ([0xC3, 0xA9], some ("UTF-8", 80, true), none) :=
  ⟨congrArg summary (DetectAndConvertToUtf8_passthrough sampleEnv [0x81, 0x7F]
      ⟨"GB2312", "zh", 95, nopDecoder, false⟩ rfl (Or.inl rfl)),
   congrArg summary (DetectAndConvertToUtf8_passthrough sampleEnv [0xC3, 0xA9]
      ⟨"UTF-8", "", 80, sampleNewDecoder SampleEnc.utf8, true⟩ rfl
      (Or.inr (Or.inr (Or.inr (Or.inl rfl)))))⟩

/-- When the top detection result is convertible, its charset label lowercased
is one of `gb18030`, `gb-18030`, `gb 18030`, `gbk`, `gb2312`, and `isValidGBK`
rejects the input, `DetectAndConvertToUtf8` returns the verdict with
confidence 20, together with the bytes and error that `ToUtf8WithDecoder`
gives for the verdict's decoder. -/
theorem detectAndConvert_gbk_guard {Enc : Type} (env : Env Enc)
    (content : List Nat) (r : Result)
    (hres : DetectEncoding env content = some (some r, none))
    (hconv : r.Convertible = true)
    (hlabel : env.toLower r.Charset ∈ ["gb18030", "gb-18030", "gb 18030", "gbk", "gb2312"])
    (hgbk : isValidGBK content = false) :
    DetectAndConvertToUtf8 env content =
      some ((ToUtf8WithDecoder content r.Decoder).1, some { r with Confidence := 20 },
        (ToUtf8WithDecoder content r.Decoder).2) := by
  unfold DetectAndConvertToUtf8
  rw [hres]
  dsimp only
  have hc : ¬ r.Convertible = false := by rw [hconv]; decide
  have hl : env.toLower r.Charset = "gb18030" ∨ env.toLower r.Charset = "gb-18030" ∨
      env.toLower r.Charset = "gb 18030" ∨ env.toLower r.Charset = "gbk" ∨
      env.toLower r.Charset = "gb2312" := by
    simpa using hlabel
  have h1 : ¬ (env.toLower r.Charset = "" ∨ env.toLower r.Charset = "unknown") := by
    rcases hl with h | h | h | h | h <;> rw [h] <;> decide
  have h2 : ¬ (env.toLower r.Charset = "utf-8" ∨ env.toLower r.Charset = "utf8") := by
    rcases hl with h | h | h | h | h <;> rw [h] <;> decide
  rw [if_neg (by simp), if_neg hc, if_neg h1, if_neg h2, if_pos hl, if_pos hgbk]

/-- A key that one of the two registries finds is resolved by the lookup. -/
theorem lookupRegistries_found {Enc : Type} (env : Env Enc) (key : String)
    (h : (∃ e, env.htmlGet key = (some e, none)) ∨
      (∃ e, env.ianaEncoding key = (some e, none))) :
    ∃ e, lookupRegistries env key = (some e, none) := by
  cases hm : lookupMissed (env.htmlGet key)
  · rw [lookupRegistries_html env key hm]
    exact lookupMissed_hit _ hm
  · rcases h with ⟨e, he⟩ | ⟨e, he⟩
    · rw [he] at hm
      simp [lookupMissed] at hm
    · have hm2 : lookupMissed (env.ianaEncoding key) = false := by rw [he]; rfl
      rw [lookupRegistries_iana env key hm hm2]
      exact ⟨e, he⟩

/-- With registries that find `gb18030`, `gbk` and `gb2312`, every label whose
lowercased form is in the GBK family resolves to a decoder. -/
theorem getDecoder_gbk_family {Enc : Type} (env : Env Enc)
    (htrim : ∀ s, env.toLower s ∈ ["gb18030", "gb-18030", "gb 18030", "gbk", "gb2312"] →
      env.toLower (env.trimSpace s) = env.toLower s)
    (hreg : ∀ key ∈ ["gb18030", "gbk", "gb2312"],
      (∃ e, env.htmlGet key = (some e, none)) ∨
      (∃ e, env.ianaEncoding key = (some e, none)))
    (name : String)
    (hlabel : env.toLower name ∈ ["gb18030", "gb-18030", "gb 18030", "gbk", "gb2312"]) :
    ∃ d, GetDecoderFromCharsetName env name = some (.ok d) := by
  have henc : ∃ e, GetEncodingFromCharsetName env name = (some e, none) := by
    unfold GetEncodingFromCharsetName
    dsimp only
    rw [htrim name hlabel]
    generalize env.toLower name = n at hlabel
    have hl : n = "gb18030" ∨ n = "gb-18030" ∨ n = "gb 18030" ∨ n = "gbk" ∨
        n = "gb2312" := by simpa using hlabel
    have k1 := lookupRegistries_found env "gb18030" (hreg "gb18030" (by simp))
    have k2 := lookupRegistries_found env "gbk" (hreg "gbk" (by simp))
    have k3 := lookupRegistries_found env "gb2312" (hreg "gb2312" (by simp))
    rcases hl with h | h | h | h | h <;> subst h
    · rw [if_neg (by decide), if_neg (by decide), if_neg (by decide)]
      exact k1
    · rw [if_pos (by decide)]
      exact k1
    · rw [if_pos (by decide)]
      exact k1
    · rw [if_neg (by decide), if_neg (by decide), if_neg (by decide)]
      exact k2
    · rw [if_neg (by decide), if_neg (by decide), if_neg (by decide)]
      exact k3
  obtain ⟨e, he⟩ := henc
  refine ⟨env.newDecoder e, ?_⟩
  unfold GetDecoderFromCharsetName
  rw [he]

/-- The result of `DetectEncoding` is the detector's first candidate with a
decoder attached. -/
theorem detectEncoding_isResultOf {Enc : Type} (env : Env Enc) (content : List Nat)
    (r : Result) (hres : DetectEncoding env content = some (some r, none)) :
    ∃ c, IsResultOf env c r := by
  unfold DetectEncoding at hres
  obtain ⟨results, hall, hrel⟩ := detectAll_spec env content
  rw [hall] at hres
  dsimp only at hres
  generalize (env.detectAll content).1 = cands at hrel
  by_cases he : (env.detectAll content).2 = none
  · rw [if_pos he] at hres
    cases hrel with
    | nil => cases hres
    | cons hc _ =>
      simp only [Option.some.injEq, Prod.mk.injEq, and_true] at hres
      rw [← hres]
      exact ⟨_, hc⟩
  · rw [if_neg he] at hres
    simp at hres

/-- C11: with registries that find `gb18030`, `gbk` and `gb2312` (as
`htmlindex` does) and a label in the GBK family having no white space to
trim: when the top detection result has a charset label that, lowercased, is
one of `gb18030`, `gb-18030`, `gb 18030`, `gbk`, `gb2312`, and `isValidGBK`
rejects the input, `DetectAndConvertToUtf8` returns the verdict with
confidence 20, whatever the detector's score, and the bytes and error of the
conversion with the decoder resolved for the verdict's charset. -/
theorem DetectAndConvertToUtf8_gbk_confidence_20 {Enc : Type} (env : Env Enc)
    (htrim : ∀ s, env.toLower s ∈ ["gb18030", "gb-18030", "gb 18030", "gbk", "gb2312"] →
      env.toLower (env.trimSpace s) = env.toLower s)
    (hreg : ∀ key ∈ ["gb18030", "gbk", "gb2312"],
      (∃ e, env.htmlGet key = (some e, none)) ∨
      (∃ e, env.ianaEncoding key = (some e, none)))
    (content : List Nat) (r : Result)
    (hres : DetectEncoding env content = some (some r, none))
    (hlabel : env.toLower r.Charset ∈ ["gb18030", "gb-18030", "gb 18030", "gbk", "gb2312"])
    (hgbk : isValidGBK content = false) :
    DetectAndConvertToUtf8 env content =
      some ((ToUtf8WithDecoder content r.Decoder).1, some { r with Confidence := 20 },
        (ToUtf8WithDecoder content r.Decoder).2) ∧
    r.Convertible = true ∧
    GetDecoderFromCharsetName env r.Charset = some (.ok r.Decoder) := by
  obtain ⟨d, hd⟩ := getDecoder_gbk_family env htrim hreg r.Charset hlabel
  obtain ⟨c, hc1, _, _, hc4⟩ := detectEncoding_isResultOf env content r hres
  rw [← hc1] at hc4
  have hconv : r.Convertible = true ∧ r.Decoder = d := by
    rcases hc4 with ⟨d2, hd2, hcv, hdec⟩ | ⟨⟨err, herr⟩, _, _⟩
    · rw [hd] at hd2
      simp only [Option.some.injEq, Except.ok.injEq] at hd2
      exact ⟨hcv, hdec.trans hd2.symm⟩
    · rw [hd] at herr
      cases herr
  refine ⟨detectAndConvert_gbk_guard env content r hres hconv.1 hlabel hgbk, hconv.1, ?_⟩
  rw [hconv.2]
  exact hd

/-- The sample lower-casing and trimming commute. -/
theorem asciiLower_trim (s : String) :
    asciiLower (asciiTrim s) = asciiTrim (asciiLower s) := by
  unfold asciiLower asciiTrim
  dsimp only
  congr 1
  exact (trim_map _ _ lower_blank s.data).symm

theorem sample_gbk_family_trim (s : String)
    (h : asciiLower s ∈ ["gb18030", "gb-18030", "gb 18030", "gbk", "gb2312"]) :
    asciiLower (asciiTrim s) = asciiLower s := by
  rw [asciiLower_trim]
  have hl : asciiLower s = "gb18030" ∨ asciiLower s = "gb-18030" ∨
      asciiLower s = "gb 18030" ∨ asciiLower s = "gbk" ∨ asciiLower s = "gb2312" := by
    simpa using h
  rcases hl with h | h | h | h | h <;> rw [h] <;> decide

theorem sampleEnvGBK_finds : ∀ key ∈ ["gb18030", "gbk", "gb2312"],
    (∃ e, sampleEnvGBK.htmlGet key = (some e, none)) ∨
    (∃ e, sampleEnvGBK.ianaEncoding key = (some e, none)) := by
  intro key hk
  have hl : key = "gb18030" ∨ key = "gbk" ∨ key = "gb2312" := by simpa using hk
  rcases hl with h | h | h <;> subst h <;> exact Or.inl ⟨SampleEnc.gb18030, rfl⟩

/-- C11 witness: on the UTF-16BE bytes `00 41 20 AC` the sample detector
reports `GB-18030` with confidence 95; the verdict comes back with
confidence 20 and the bytes converted by the resolved decoder. -/
theorem DetectAndConvertToUtf8_gbk_confidence_20_witness :
    summary (DetectAndConvertToUtf8 sampleEnvGBK [0x00, 0x41, 0x20, 0xAC]) =
      some ([0x00, 0x41, 0x20, 0xEF, 0xBF, 0xBD], some ("GB-18030", 20, true), none) :=
  (congrArg summary (DetectAndConvertToUtf8_gbk_confidence_20 sampleEnvGBK
    sample_gbk_family_trim sampleEnvGBK_finds [0x00, 0x41, 0x20, 0xAC]
    ⟨"GB-18030", "zh", 95, sampleNewDecoder SampleEnc.gb18030, true⟩ rfl
    (by decide) (by decide)).1).trans rfl

/-- C13, as stated, fails: the 7-bit bytes `ESC $ B 0 ! ESC ( B` are valid
UTF-8, the sample detector labels them `ISO-2022-JP`, and the output is the
three bytes `E4 BA 9C`, not the input. -/
theorem DetectAndConvertToUtf8_changes_valid_utf8 :
    IsValidUTF8 [0x1B, 0x24, 0x42, 0x30, 0x21, 0x1B, 0x28, 0x42] = true ∧
    summary (DetectAndConvertToUtf8 sampleEnv
        [0x1B, 0x24, 0x42, 0x30, 0x21, 0x1B, 0x28, 0x42]) =
      some ([0xE4, 0xBA, 0x9C], some ("ISO-2022-JP", 70, true), none) :=
  ⟨by decide, rfl⟩

/-- C13, amended: for every byte buffer, valid UTF-8 or not, with a top
detection result, `DetectAndConvertToUtf8` returns; its output bytes are the
input bytes exactly when the top result is not convertible, or its label
lowercased is empty, `unknown`, `utf-8` or `utf8`, or the conversion with the
top result's decoder gives the input bytes back. -/
theorem DetectAndConvertToUtf8_output_unchanged_iff {Enc : Type} (env : Env Enc)
    (content : List Nat) (r : Result)
    (hres : DetectEncoding env content = some (some r, none)) :
    (∃ t, DetectAndConvertToUtf8 env content = some t) ∧
    ((DetectAndConvertToUtf8 env content).map (fun t => t.1) = some content ↔
      (r.Convertible = false ∨ env.toLower r.Charset = "" ∨
        env.toLower r.Charset = "unknown" ∨ env.toLower r.Charset = "utf-8" ∨
        env.toLower r.Charset = "utf8" ∨
        (ToUtf8WithDecoder content r.Decoder).1 = content)) := by
  unfold DetectAndConvertToUtf8
  rw [hres]
  dsimp only
  rw [if_neg (by simp)]
  by_cases hc : r.Convertible = false
  · rw [if_pos hc]
    exact ⟨⟨_, rfl⟩, fun _ => Or.inl hc, fun _ => rfl⟩
  rw [if_neg hc]
  by_cases h1 : env.toLower r.Charset = "" ∨ env.toLower r.Charset = "unknown"
  · rw [if_pos h1]
    refine ⟨⟨_, rfl⟩, fun _ => ?_, fun _ => rfl⟩
    rcases h1 with h | h
    · exact Or.inr (Or.inl h)
    · exact Or.inr (Or.inr (Or.inl h))
  rw [if_neg h1]
  by_cases h2 : env.toLower r.Charset = "utf-8" ∨ env.toLower r.Charset = "utf8"
  · rw [if_pos h2]
    refine ⟨⟨_, rfl⟩, fun _ => ?_, fun _ => rfl⟩
    rcases h2 with h | h
    · exact Or.inr (Or.inr (Or.inr (Or.inl h)))
    · exact Or.inr (Or.inr (Or.inr (Or.inr (Or.inl h))))
  rw [if_neg h2]
  refine ⟨⟨_, rfl⟩, ?_⟩
  have hdec : ∀ (p q : Prop) [Decidable p] [Decidable q],
      (if p then (if q then { r with Confidence := 20 } else r) else r).Decoder =
        r.Decoder := by
    intro p q _ _
    split_ifs <;> rfl
  simp only [Option.map_some', Option.some.injEq, hdec]
  constructor
  · intro h
    exact Or.inr (Or.inr (Or.inr (Or.inr (Or.inr h))))
  · rintro (h | h | h | h | h | h)
    · exact absurd h hc
    · exact absurd (Or.inl h) h1
    · exact absurd (Or.inr h) h1
    · exact absurd (Or.inl h) h2
    · exact absurd (Or.inr h) h2
    · exact h

/-- C13 witness: the valid UTF-8 bytes `C3 A9`, labelled `UTF-8` by the sample
detector, come back unchanged; the valid UTF-8 bytes `ESC $ B 0 ! ESC ( B`,
labelled `ISO-2022-JP`, do not, since the decoder changes them. -/
theorem DetectAndConvertToUtf8_output_unchanged_iff_witness :
    IsValidUTF8 [0xC3, 0xA9] = true ∧
    (DetectAndConvertToUtf8 sampleEnv [0xC3, 0xA9]).map (fun t => t.1) =
      some [0xC3, 0xA9] ∧
    ¬ ((DetectAndConvertToUtf8 sampleEnv
        [0x1B, 0x24, 0x42, 0x30, 0x21, 0x1B, 0x28, 0x42]).map (fun t => t.1) =
      some [0x1B, 0x24, 0x42, 0x30, 0x21, 0x1B, 0x28, 0x42]) :=
  ⟨by decide,
   (DetectAndConvertToUtf8_output_unchanged_iff sampleEnv [0xC3, 0xA9]
      ⟨"UTF-8", "", 80, sampleNewDecoder SampleEnc.utf8, true⟩ rfl).2.mpr
      (Or.inr (Or.inr (Or.inr (Or.inl (by decide))))),
   fun h => absurd
     ((DetectAndConvertToUtf8_output_unchanged_iff sampleEnv
        [0x1B, 0x24, 0x42, 0x30, 0x21, 0x1B, 0x28, 0x42]
        ⟨"ISO-2022-JP", "ja", 70, sampleNewDecoder SampleEnc.iso2022jp, true⟩ rfl).2.mp h)
     (by decide)⟩

/-- C14, as stated, fails: on `41 FF` the sample ASCII decoder fails and
`ToUtf8WithDecoder` returns no bytes with `errWrongDecoder`; so does
`ToUtf8WithCharsetName` for the name `us-ascii`. -/
theorem ToUtf8WithDecoder_failure_returns_nil :
    ToUtf8WithDecoder [0x41, 0xFF] (sampleNewDecoder SampleEnc.ascii) =
      ([], some Err.errWrongDecoder) ∧
    ToUtf8WithCharsetName sampleEnv [0x41, 0xFF] "us-ascii" =
      some ([], some Err.errWrongDecoder) ∧
    ([] : List Nat) ≠ [0x41, 0xFF] := by
  decide

/-- C14, amended: a failed conversion never returns a partial conversion.
`ToUtf8WithDecoder` and `ToUtf8WithEncoding` fail with no bytes and
`errWrongDecoder`; `ToUtf8WithCharsetName` fails either with the caller's
bytes and `errInvalidName` or with no bytes and `errWrongDecoder`;
`DetectAndConvertToUtf8` fails with no bytes and `errWrongDecoder`. -/
theorem conversion_failure_bytes {Enc : Type} (env : Env Enc) (content : List Nat) :
    (∀ d, (ToUtf8WithDecoder content d).2 ≠ none →
      ToUtf8WithDecoder content d = ([], some Err.errWrongDecoder)) ∧
    (∀ e, (ToUtf8WithEncoding env content e).2 ≠ none →
      ToUtf8WithEncoding env content e = ([], some Err.errWrongDecoder)) ∧
    (∀ name bytes err, ToUtf8WithCharsetName env content name = some (bytes, some err) →
      (bytes = content ∧ err = Err.errInvalidName) ∨
      (bytes = [] ∧ err = Err.errWrongDecoder)) ∧
    (∀ bytes res err, DetectAndConvertToUtf8 env content = some (bytes, res, some err) →
      bytes = [] ∧ err = Err.errWrongDecoder) := by
  have hd : ∀ d, (ToUtf8WithDecoder content d).2 ≠ none →
      ToUtf8WithDecoder content d = ([], some Err.errWrongDecoder) := by
    intro d h
    rcases toUtf8WithDecoder_cases content d with h1 | h1
    · exact h1
    · rw [h1] at h; exact absurd rfl h
  refine ⟨hd, fun e h => hd _ h, ?_, ?_⟩
  · intro name bytes err h
    unfold ToUtf8WithCharsetName at h
    rcases getDecoder_cases env name with hg | ⟨e, _, hg⟩
    · rw [hg] at h
      simp only [Option.some.injEq, Prod.mk.injEq] at h
      exact Or.inl ⟨h.1.symm, h.2.symm⟩
    · rw [hg] at h
      have h2 := Option.some.inj h
      have h3 := hd (env.newDecoder e) (by rw [h2]; simp)
      rw [h3] at h2
      simp only [Prod.mk.injEq, Option.some.injEq] at h2
      exact Or.inr ⟨h2.1.symm, h2.2.symm⟩
  · intro bytes res err h
    obtain ⟨r, _, h1 | ⟨r2, h1⟩⟩ := detectAndConvert_cases env content _ h
    · simp only [Prod.mk.injEq] at h1
      cases h1.2.2
    · simp only [Prod.mk.injEq] at h1
      have h3 := hd r2.Decoder (by rw [← h1.2.2]; simp)
      rw [h3] at h1
      simp only [Option.some.injEq] at h1
      exact ⟨h1.1, h1.2.2⟩

/-- C14 witness: `ToUtf8WithDecoder` on `41 FF` with the failing sample ASCII
decoder. -/
theorem conversion_failure_bytes_witness :
    ToUtf8WithDecoder [0x41, 0xFF] (sampleNewDecoder SampleEnc.ascii) =
      ([], some Err.errWrongDecoder) :=
  (conversion_failure_bytes sampleEnv [0x41, 0xFF]).1 (sampleNewDecoder SampleEnc.ascii)
    (by decide)

/-- C15: on `FF` the sample detector reports an error; `DetectAll` returns
it, but `DetectEncoding` returns a nil result with a nil error, and
`DetectAndConvertToUtf8` then dereferences the nil result. -/
theorem DetectEncoding_drops_detector_error :
    (DetectAll sampleEnv [0xFF]).map (fun r => r.2) =
      some (some (Err.external "Charset not detected.")) ∧
    DetectEncoding sampleEnv [0xFF] = some (none, none) ∧
    DetectAndConvertToUtf8 sampleEnv [0xFF] = none :=
  ⟨by decide, rfl, rfl⟩

/-! ### charset.go: aliases and reverse lookup -/

/-- C22: a label that normalises to `gb-18030`, `gb_18030` or `gb 18030`
resolves to what a label normalising to `gb18030` resolves to; a label that
normalises to one of the nine forms `utf[-_]?32[-_]?le` resolves without
error to the UTF-32 little-endian encoding, and one of the nine forms
`utf[-_]?32[-_]?be` to the big-endian one, whatever the two registries
answer. -/
theorem GetEncodingFromCharsetName_aliases {Enc : Type} (env : Env Enc) (name : String) :
    (env.toLower (env.trimSpace name) ∈ ["gb-18030", "gb_18030", "gb 18030"] →
      ∀ name2, env.toLower (env.trimSpace name2) = "gb18030" →
        GetEncodingFromCharsetName env name = GetEncodingFromCharsetName env name2) ∧
    (env.toLower (env.trimSpace name) ∈
        ["utf-32-le", "utf_32_le", "utf-32_le", "utf_32-le", "utf32le", "utf-32le",
          "utf32-le", "utf_32le", "utf32_le"] →
      ∀ html iana, GetEncodingFromCharsetName
        { env with htmlGet := html, ianaEncoding := iana } name = (some env.utf32LE, none)) ∧
    (env.toLower (env.trimSpace name) ∈
        ["utf-32-be", "utf_32_be", "utf-32_be", "utf_32-be", "utf32be", "utf-32be",
          "utf32-be", "utf_32be", "utf32_be"] →
      ∀ html iana, GetEncodingFromCharsetName
        { env with htmlGet := html, ianaEncoding := iana } name = (some env.utf32BE, none)) := by
  refine ⟨?_, ?_, ?_⟩
  · intro h name2 h2
    have hg : env.toLower (env.trimSpace name) = "gb-18030" ∨
        env.toLower (env.trimSpace name) = "gb_18030" ∨
        env.toLower (env.trimSpace name) = "gb 18030" := by simpa using h
    unfold GetEncodingFromCharsetName
    dsimp only
    rw [if_pos hg, h2, if_neg (by decide), if_neg (by decide), if_neg (by decide)]
  · intro h html iana
    unfold GetEncodingFromCharsetName
    dsimp only
    generalize env.toLower (env.trimSpace name) = n at h
    have hl : n = "utf-32-le" ∨ n = "utf_32_le" ∨ n = "utf-32_le" ∨ n = "utf_32-le" ∨
        n = "utf32le" ∨ n = "utf-32le" ∨ n = "utf32-le" ∨ n = "utf_32le" ∨
        n = "utf32_le" := by simpa using h
    have hg : ¬ (n = "gb-18030" ∨ n = "gb_18030" ∨ n = "gb 18030") := by
      rcases hl with h | h | h | h | h | h | h | h | h <;> rw [h] <;> decide
    rw [if_neg hg, if_pos hl]
  · intro h html iana
    unfold GetEncodingFromCharsetName
    dsimp only
    generalize env.toLower (env.trimSpace name) = n at h
    have hb : n = "utf-32-be" ∨ n = "utf_32_be" ∨ n = "utf-32_be" ∨ n = "utf_32-be" ∨
        n = "utf32be" ∨ n = "utf-32be" ∨ n = "utf32-be" ∨ n = "utf_32be" ∨
        n = "utf32_be" := by simpa using h
    have hg : ¬ (n = "gb-18030" ∨ n = "gb_18030" ∨ n = "gb 18030") := by
      rcases hb with h | h | h | h | h | h | h | h | h <;> rw [h] <;> decide
    have hl : ¬ (n = "utf-32-le" ∨ n = "utf_32_le" ∨ n = "utf-32_le" ∨ n = "utf_32-le" ∨
        n = "utf32le" ∨ n = "utf-32le" ∨ n = "utf32-le" ∨ n = "utf_32le" ∨
        n = "utf32_le") := by
      rcases hb with h | h | h | h | h | h | h | h | h <;> rw [h] <;> decide
    rw [if_neg hg, if_neg hl, if_pos hb]

/-- C22 witness: in the sample environment `gb_18030` resolves as `gb18030`
does, and `UTF-32LE`, `utf_32-be` resolve to the UTF-32 encodings even with
registries that know nothing. -/
theorem GetEncodingFromCharsetName_aliases_witness :
    GetEncodingFromCharsetName sampleEnv "gb_18030" =
      GetEncodingFromCharsetName sampleEnv "gb18030" ∧
    GetEncodingFromCharsetName
      { sampleEnv with htmlGet := fun _ => (none, none), ianaEncoding := fun _ => (none, none) }
      "UTF-32LE" = (some SampleEnc.utf32le, none) ∧
    GetEncodingFromCharsetName
      { sampleEnv with htmlGet := fun _ => (none, none), ianaEncoding := fun _ => (none, none) }
      "utf_32-be" = (some SampleEnc.utf32be, none) :=
  ⟨(GetEncodingFromCharsetName_aliases sampleEnv "gb_18030").1 (by decide) "gb18030"
      (by decide),
   (GetEncodingFromCharsetName_aliases sampleEnv "UTF-32LE").2.1 (by decide) _ _,
   (GetEncodingFromCharsetName_aliases sampleEnv "utf_32-be").2.2 (by decide) _ _⟩

/-- C23: `getCharsetNameFromEncoding` returns the IANA registry's name when
the IANA lookup succeeds, otherwise the HTML registry's name when that lookup
succeeds; when both fail the error is `errUnsupported` if the message of the
HTML registry's error contains `not supported`, and `errUnknown` otherwise. -/
theorem getCharsetNameFromEncoding_lookup_order {Enc : Type} (env : Env Enc) (e : Enc) :
    ((env.ianaName e).2 = none →
      getCharsetNameFromEncoding env e = ((env.ianaName e).1, none)) ∧
    ((env.ianaName e).2 ≠ none → (env.htmlName e).2 = none →
      getCharsetNameFromEncoding env e = ((env.htmlName e).1, none)) ∧
    (∀ err, (env.ianaName e).2 ≠ none → (env.htmlName e).2 = some err →
      (getCharsetNameFromEncoding env e).2 =
        some (if stringsContains err.Error "not supported" = true then Err.errUnsupported
          else Err.errUnknown)) := by
  unfold getCharsetNameFromEncoding
  dsimp only
  refine ⟨?_, ?_, ?_⟩
  · intro h
    rw [if_neg (by rw [h]; simp), h]
    exact Prod.ext rfl h
  · intro h h2
    rw [if_pos h, h2]
    exact Prod.ext rfl h2
  · intro err h h2
    rw [if_pos h, h2]
    dsimp only
    by_cases hc : stringsContains err.Error "not supported" = true
    · rw [if_pos hc, if_pos hc]
    · rw [if_neg hc, if_neg hc]

/-- C23 witness: in the sample environment Latin-1 has an IANA name, UTF-8
has only an HTML name, UTF-32 big-endian fails in both registries with an
HTML message that contains `not supported`, and UTF-32 little-endian fails
with one that does not. -/
theorem getCharsetNameFromEncoding_lookup_order_witness :
    getCharsetNameFromEncoding sampleEnv SampleEnc.latin1 = ("ISO_8859-1:1987", none) ∧
    getCharsetNameFromEncoding sampleEnv SampleEnc.utf8 = ("utf-8", none) ∧
    (getCharsetNameFromEncoding sampleEnv SampleEnc.utf32be).2 = some Err.errUnsupported ∧
    (getCharsetNameFromEncoding sampleEnv SampleEnc.utf32le).2 = some Err.errUnknown :=
  ⟨(getCharsetNameFromEncoding_lookup_order sampleEnv SampleEnc.latin1).1 (by decide),
   (getCharsetNameFromEncoding_lookup_order sampleEnv SampleEnc.utf8).2.1 (by decide)
      (by decide),
   ((getCharsetNameFromEncoding_lookup_order sampleEnv SampleEnc.utf32be).2.2
      (Err.external "htmlindex: this encoding is not supported") (by decide)
      (by decide)).trans (by decide),
   ((getCharsetNameFromEncoding_lookup_order sampleEnv SampleEnc.utf32le).2.2
      (Err.external "htmlindex: unknown Encoding") (by decide) (by decide)).trans
      (by decide)⟩

/-! ### Validators on particular inputs -/

/-- C24: `isValidGBK` accepts `7F`, `81 40` and `C4 E3 BA C3`, and rejects
`80` and `81 7F`. -/
theorem isValidGBK_boundary_cases :
    isValidGBK [0x7F] = true ∧ isValidGBK [0x81, 0x40] = true ∧
    isValidGBK [0xC4, 0xE3, 0xBA, 0xC3] = true ∧
    isValidGBK [0x80] = false ∧ isValidGBK [0x81, 0x7F] = false := by
  decide

/-- C25: every byte sequence that begins with `FE FF` or with `FF FE` is
rejected by `isValidGBK` and by `isValidBig5`. -/
theorem bom_rejected_by_GBK_and_Big5 (rest : List Nat) :
    isValidGBK (0xFE :: 0xFF :: rest) = false ∧
    isValidGBK (0xFF :: 0xFE :: rest) = false ∧
    isValidBig5 (0xFE :: 0xFF :: rest) = false ∧
    isValidBig5 (0xFF :: 0xFE :: rest) = false := by
  refine ⟨?_, ?_, ?_, ?_⟩
  · simp [isValidGBK, isValidGBKLoop]
  · simp [isValidGBK, isValidGBKLoop]
  · simp [isValidBig5, isValidBig5Loop]
  · simp [isValidBig5, isValidBig5Loop]

/-- C26: the bytes `DC 00 DC 00` have no byte-order mark and an even length,
their code units `0xDC00, 0xDC00` are two low surrogates with no high
surrogate before them, which is not well-formed UTF-16, and `isValidUTF16BE`
returns true; the first unit alone sets the flag (`DC 00` is rejected), the
second clears it.  `isValidUTF16LE` does the same on `00 DC 00 DC`. -/
theorem isValidUTF16_accepts_unpaired_low_surrogates :
    specUnitsBE [0xDC, 0x00, 0xDC, 0x00] = [0xDC00, 0xDC00] ∧
    wellFormedUTF16 [0xDC00, 0xDC00] = false ∧
    isValidUTF16BE [0xDC, 0x00, 0xDC, 0x00] = some true ∧
    isValidUTF16BE [0xDC, 0x00] = some false ∧
    isValidUTF16LE [0x00, 0xDC, 0x00, 0xDC] = some true := by
  decide

/-! ### UTF-16: byte order -/

theorem swapPairs_length : ∀ l : List Nat, (swapPairs l).length = l.length
  | [] => rfl
  | [_] => rfl
  | a :: b :: rest => by
    simp only [swapPairs, List.length_cons, swapPairs_length rest]

theorem utf16_loop_swap : ∀ (flag : Bool) (l : List Nat),
    isValidUTF16LELoop flag l = isValidUTF16BELoop flag (swapPairs l)
  | _, [] => rfl
  | _, [_] => rfl
  | flag, a :: b :: rest => by
    simp only [swapPairs, isValidUTF16LELoop, isValidUTF16BELoop,
      utf16_loop_swap false rest, utf16_loop_swap true rest, utf16_loop_swap flag rest]

theorem utf16BE_loop_total : ∀ (l : List Nat) (flag : Bool), l.length % 2 = 0 →
    ∃ r, isValidUTF16BELoop flag l = some r
  | [], flag, _ => ⟨!flag, rfl⟩
  | [_], _, h => by simp at h
  | a :: b :: rest, flag, h => by
    have hr : rest.length % 2 = 0 := by
      simp only [List.length_cons] at h
      omega
    obtain ⟨r1, h1⟩ := utf16BE_loop_total rest false hr
    obtain ⟨r2, h2⟩ := utf16BE_loop_total rest true hr
    obtain ⟨r3, h3⟩ := utf16BE_loop_total rest flag hr
    simp only [isValidUTF16BELoop, h1, h2, h3]
    split_ifs <;> exact ⟨_, rfl⟩

/-- `isValidUTF16BE` returns a value on every input: no index is out of
range. -/
theorem isValidUTF16BE_total (content : List Nat) :
    ∃ r, isValidUTF16BE content = some r := by
  unfold isValidUTF16BE
  by_cases h0 : content.length = 0
  · rw [if_pos h0]; exact ⟨_, rfl⟩
  rw [if_neg h0]
  by_cases h1 : content.length &&& 0x1 ≠ 0
  · rw [if_pos h1]; exact ⟨_, rfl⟩
  rw [if_neg h1]
  have heven : content.length % 2 = 0 := by
    rw [Nat.and_one_is_mod] at h1
    omega
  match content, h0, heven with
  | [], h0, _ => exact absurd rfl h0
  | [_], _, heven => simp at heven
  | a :: b :: rest, _, heven =>
    obtain ⟨r, hr⟩ := utf16BE_loop_total (a :: b :: rest) false heven
    simp only [List.getElem?_cons_zero, List.getElem?_cons_succ, hr]
    split_ifs <;> exact ⟨_, rfl⟩

theorem isValidUTF16LE_eq_swap (content : List Nat) :
    isValidUTF16LE content = isValidUTF16BE (swapPairs content) := by
  unfold isValidUTF16LE isValidUTF16BE
  rw [swapPairs_length]
  match content with
  | [] => rfl
  | [_] => rfl
  | a :: b :: rest =>
    rw [utf16_loop_swap false (a :: b :: rest)]
    simp only [swapPairs, List.getElem?_cons_zero, List.getElem?_cons_succ]

/-- C27: `isValidUTF16LE` on a byte sequence is `isValidUTF16BE` on the
sequence with the two bytes of every aligned pair swapped; both return a
value on every input, and `isValidUTF16` returns (BE or LE, BE, LE) for these
two values. -/
theorem isValidUTF16LE_is_BE_on_swapped_pairs (content : List Nat) :
    isValidUTF16LE content = isValidUTF16BE (swapPairs content) ∧
    ∃ be le, isValidUTF16BE content = some be ∧ isValidUTF16LE content = some le ∧
      isValidUTF16 content = some (be || le, be, le) := by
  refine ⟨isValidUTF16LE_eq_swap content, ?_⟩
  obtain ⟨be, hbe⟩ := isValidUTF16BE_total content
  obtain ⟨le, hle⟩ := isValidUTF16BE_total (swapPairs content)
  rw [← isValidUTF16LE_eq_swap] at hle
  refine ⟨be, le, hbe, hle, ?_⟩
  simp [isValidUTF16, hbe, hle]

/-! ### charset.go: run-time faults -/

/-- C28: on `FF` the sample detector reports an error, `DetectEncoding`
returns a nil result with a nil error and `DetectAndConvertToUtf8` reads
a field of that nil result; on `FE` the sample detector returns no candidate
and no error, and `DetectEncoding` indexes the empty list. -/
theorem DetectAndConvertToUtf8_run_time_faults :
    sampleDetect [0xFF] = ([], some (Err.external "Charset not detected.")) ∧
    DetectEncoding sampleEnv [0xFF] = some (none, none) ∧
    DetectAndConvertToUtf8 sampleEnv [0xFF] = none ∧
    sampleDetect [0xFE] = ([], none) ∧
    DetectEncoding sampleEnv [0xFE] = none ∧
    DetectAndConvertToUtf8 sampleEnv [0xFE] = none :=
  ⟨rfl, rfl, rfl, rfl, rfl, rfl⟩

/-! ### Relations between the multi-byte validators -/

theorem gbkChar_is_gb18030Char (c : List Nat) (h : isGBKChar c = true) :
    isGB18030Char c = true := by
  match c, h with
  | [_], h => exact h
  | [_, _], h => exact h

theorem gbk_to_gb18030 (content : List Nat) (h : isValidGBK content = true) :
    isValidGB18030 content = true := by
  obtain ⟨chars, hall, rfl⟩ := gbk_sound content h
  have := concat_step isGB18030Char (isValidGB18030Loop 1) gb18030_char_step chars
    (fun c hc => gbkChar_is_gb18030Char c (hall c hc)) []
  simpa [isValidGB18030, isValidGB18030Loop] using this

theorem noLeadThenDigit_tail (b : Nat) (r : List Nat) (hb : b ≤ 0x7F)
    (h : noLeadThenDigit (b :: r) = true) : noLeadThenDigit r = true := by
  match r, h with
  | [], _ => rfl
  | t :: r2, h =>
    rw [noLeadThenDigit, if_pos hb] at h
    exact h

theorem gb18030_to_gbk_aux (n : Nat) : ∀ content : List Nat, content.length ≤ n →
    isValidGB18030Loop 1 content = true → noLeadThenDigit content = true →
    isValidGBKLoop 1 content = true := by
  induction n with
  | zero =>
    intro content hlen _ _
    have : content = [] := List.length_eq_zero.mp (by omega)
    subst this
    rfl
  | succ n ih =>
    intro content hlen h hno
    match content, hlen, h, hno with
    | [], _, _, _ => rfl
    | b :: r1, hlen, h, hno =>
      simp only [List.length_cons] at hlen
      rcases gb18030_loop1_cons b r1 h with ⟨hb, h1⟩ | ⟨hl, hl2, h2⟩
      · have hrec := ih r1 (by omega) h1 (noLeadThenDigit_tail b r1 hb hno)
        rw [isValidGBKLoop, if_pos rfl, if_pos hb]
        exact hrec
      · match r1, hlen, h2, hno with
        | [], _, h2, _ => simp [isValidGB18030Loop] at h2
        | t :: r2, hlen, h2, hno =>
          simp only [List.length_cons] at hlen
          have hb : ¬ b ≤ 0x7F := by omega
          rw [noLeadThenDigit, if_neg hb] at hno
          rcases gb18030_loop2_cons t r2 h2 with ⟨ht, ht2, ht3, h1⟩ | ⟨hd, hd2, _⟩
          · have hdig : ¬ (0x30 ≤ t ∧ t ≤ 0x39) := by omega
            rw [if_neg hdig] at hno
            have hrec := ih r2 (by omega) h1 hno
            have hstep := gbk_char_step [b, t] r2
              (by simp only [isGBKChar, decide_eq_true_eq]; omega)
            rw [← hrec]
            exact hstep
          · rw [if_pos ⟨hd, hd2⟩] at hno
            exact absurd hno (by decide)

/-- C29: every byte sequence accepted by `isValidGBK` is accepted by
`isValidGB18030`; a sequence accepted by `isValidGB18030` in which no lead
byte is followed by a byte in `[0x30, 0x39]` is accepted by `isValidGBK`; and
the four-byte character `81 30 81 30` is accepted by `isValidGB18030` only. -/
theorem isValidGB18030_extends_isValidGBK (content : List Nat) :
    (isValidGBK content = true → isValidGB18030 content = true) ∧
    (isValidGB18030 content = true → noLeadThenDigit content = true →
      isValidGBK content = true) ∧
    (isValidGB18030 [0x81, 0x30, 0x81, 0x30] = true ∧
      isValidGBK [0x81, 0x30, 0x81, 0x30] = false) := by
  refine ⟨gbk_to_gb18030 content, ?_, by decide⟩
  intro h hno
  exact gb18030_to_gbk_aux content.length content (Nat.le_refl _) h hno

/-- C29 witness: `C4 E3 41` is accepted by both validators, `81 81 30` (a
two-byte character and the digit `0`) has no lead byte followed by a digit
and is accepted by both. -/
theorem isValidGB18030_extends_isValidGBK_witness :
    isValidGB18030 [0xC4, 0xE3, 0x41] = true ∧ isValidGBK [0x81, 0x81, 0x30] = true :=
  ⟨(isValidGB18030_extends_isValidGBK [0xC4, 0xE3, 0x41]).1 (by decide),
   (isValidGB18030_extends_isValidGBK [0x81, 0x81, 0x30]).2.1 (by decide) (by decide)⟩

theorem gbk_ascii : ∀ a : List Nat, (∀ x ∈ a, x ≤ 0x7F) → isValidGBKLoop 1 a = true
  | [], _ => rfl
  | x :: a, h => by
    rw [isValidGBKLoop, if_pos rfl, if_pos (h x (List.mem_cons_self _ _))]
    exact gbk_ascii a (fun y hy => h y (List.mem_cons_of_mem _ hy))

theorem gb18030_ascii : ∀ a : List Nat, (∀ x ∈ a, x ≤ 0x7F) →
    isValidGB18030Loop 1 a = true
  | [], _ => rfl
  | x :: a, h => by
    rw [isValidGB18030Loop, if_pos rfl, if_pos (h x (List.mem_cons_self _ _))]
    exact gb18030_ascii a (fun y hy => h y (List.mem_cons_of_mem _ hy))

theorem big5_ascii : ∀ a : List Nat, (∀ x ∈ a, x ≤ 0x7F) → isValidBig5Loop 1 a = true
  | [], _ => rfl
  | x :: a, h => by
    rw [isValidBig5Loop, if_pos rfl, if_pos (h x (List.mem_cons_self _ _))]
    exact big5_ascii a (fun y hy => h y (List.mem_cons_of_mem _ hy))

/-- C30: for each of `isValidGBK`, `isValidGB18030` and `isValidBig5`, if `a`
is accepted then `a` followed by `b` is accepted exactly when `b` is; the
empty sequence and every sequence of bytes `≤ 0x7F` are accepted. -/
theorem validators_compositional (a b : List Nat) :
    (isValidGBK a = true → (isValidGBK (a ++ b) = true ↔ isValidGBK b = true)) ∧
    (isValidGB18030 a = true →
      (isValidGB18030 (a ++ b) = true ↔ isValidGB18030 b = true)) ∧
    (isValidBig5 a = true → (isValidBig5 (a ++ b) = true ↔ isValidBig5 b = true)) ∧
    (isValidGBK [] = true ∧ isValidGB18030 [] = true ∧ isValidBig5 [] = true) ∧
    ((∀ x ∈ a, x ≤ 0x7F) →
      isValidGBK a = true ∧ isValidGB18030 a = true ∧ isValidBig5 a = true) := by
  refine ⟨?_, ?_, ?_, ⟨rfl, rfl, rfl⟩, ?_⟩
  · intro h
    obtain ⟨chars, hall, rfl⟩ := gbk_sound a h
    unfold isValidGBK
    rw [concat_step isGBKChar (isValidGBKLoop 1) gbk_char_step chars hall b]
  · intro h
    obtain ⟨chars, hall, rfl⟩ := gb18030_sound_aux a.length a (Nat.le_refl _) h
    unfold isValidGB18030
    rw [concat_step isGB18030Char (isValidGB18030Loop 1) gb18030_char_step chars hall b]
  · intro h
    obtain ⟨chars, hall, rfl⟩ := big5_sound a h
    unfold isValidBig5
    rw [concat_step isBig5Char (isValidBig5Loop 1) big5_char_step chars hall b]
  · intro h
    exact ⟨gbk_ascii a h, gb18030_ascii a h, big5_ascii a h⟩

/-- C30 witness: `C4 E3` is accepted by the three validators, so `C4 E3`
followed by `41 42` is accepted as `41 42` is, and followed by `80` is
rejected as `80` is; the ASCII bytes `41 42` are accepted. -/
theorem validators_compositional_witness :
    isValidGBK ([0xC4, 0xE3] ++ [0x41, 0x42]) = true ∧
    isValidGB18030 ([0xC4, 0xE3] ++ [0x41, 0x42]) = true ∧
    isValidBig5 ([0xC4, 0xE3] ++ [0x41, 0x42]) = true ∧
    ¬ isValidGBK ([0xC4, 0xE3] ++ [0x80]) = true ∧
    (isValidGBK [0x41, 0x42] = true ∧ isValidGB18030 [0x41, 0x42] = true ∧
      isValidBig5 [0x41, 0x42] = true) :=
  ⟨((validators_compositional [0xC4, 0xE3] [0x41, 0x42]).1 (by decide)).mpr (by decide),
   ((validators_compositional [0xC4, 0xE3] [0x41, 0x42]).2.1 (by decide)).mpr (by decide),
   ((validators_compositional [0xC4, 0xE3] [0x41, 0x42]).2.2.1 (by decide)).mpr
      (by decide),
   fun h => absurd (((validators_compositional [0xC4, 0xE3] [0x80]).1 (by decide)).mp h)
      (by decide),
   (validators_compositional [0x41, 0x42] []).2.2.2.2 (by decide)⟩

/-! ### charset.go: case and whitespace -/

/-- C21: when trimming and lowercasing a label a second time changes nothing
(as for `strings.TrimSpace` and `strings.ToLower`),
`GetEncodingFromCharsetName` returns for a label what it returns for the
label trimmed and lowercased. -/
theorem GetEncodingFromCharsetName_normalises {Enc : Type} (env : Env Enc)
    (hnorm : ∀ s, env.toLower (env.trimSpace (env.toLower (env.trimSpace s))) =
      env.toLower (env.trimSpace s))
    (name : String) :
    GetEncodingFromCharsetName env name =
      GetEncodingFromCharsetName env (env.toLower (env.trimSpace name)) := by
  unfold GetEncodingFromCharsetName
  dsimp only
  rw [hnorm]

/-- C21 witness: in the sample environment `"  Iso-8859-1 "` resolves as its
normal form does, to the Latin-1 encoding. -/
theorem GetEncodingFromCharsetName_normalises_witness :
    GetEncodingFromCharsetName sampleEnv "  Iso-8859-1 " =
      GetEncodingFromCharsetName sampleEnv "iso-8859-1" ∧
    GetEncodingFromCharsetName sampleEnv "iso-8859-1" = (some SampleEnc.latin1, none) :=
  ⟨(GetEncodingFromCharsetName_normalises sampleEnv asciiNorm_idem "  Iso-8859-1 ").trans
      (by decide),
   by decide⟩

/-! ### Big5 and the GBK guard -/

theorem big5Char_is_gbkChar (c : List Nat) (h : isBig5Char c = true) :
    isGBKChar c = true := by
  match c, h with
  | [_], h => exact h
  | [l, t], h =>
    simp only [isBig5Char, decide_eq_true_eq] at h
    simp only [isGBKChar, decide_eq_true_eq]
    omega

theorem big5_to_gbk (content : List Nat) (h : isValidBig5 content = true) :
    isValidGBK content = true := by
  obtain ⟨chars, hall, rfl⟩ := big5_sound content h
  exact gbk_complete chars (fun c hc => big5Char_is_gbkChar c (hall c hc))

/-- On input that `isValidGBK` accepts, `DetectAndConvertToUtf8` returns the
verdict of `DetectEncoding` as it is. -/
theorem detectAndConvert_keeps_verdict {Enc : Type} (env : Env Enc)
    (content : List Nat) (r : Result) (hgbk : isValidGBK content = true)
    (hres : DetectEncoding env content = some (some r, none)) :
    ∃ bytes err, DetectAndConvertToUtf8 env content = some (bytes, some r, err) := by
  have hg : ¬ (isValidGBK content = false) := by rw [hgbk]; decide
  unfold DetectAndConvertToUtf8
  rw [hres]
  dsimp only
  simp only [if_neg hg, ite_self]
  split_ifs <;> exact ⟨_, _, rfl⟩

/-- C31: every byte sequence accepted by `isValidBig5` is accepted by
`isValidGBK` and by `isValidGB18030`; on such input `DetectAndConvertToUtf8`
returns the top detection result unchanged, so its confidence is the
detector's. -/
theorem isValidBig5_implies_isValidGBK (content : List Nat)
    (h : isValidBig5 content = true) :
    isValidGBK content = true ∧ isValidGB18030 content = true ∧
    ∀ (Enc : Type) (env : Env Enc) (r : Result),
      DetectEncoding env content = some (some r, none) →
        ∃ bytes err, DetectAndConvertToUtf8 env content = some (bytes, some r, err) := by
  have hgbk := big5_to_gbk content h
  exact ⟨hgbk, gbk_to_gb18030 content hgbk,
    fun _ env r hres => detectAndConvert_keeps_verdict env content r hgbk hres⟩

/-- C31 witness: the Big5 bytes `A4 40` are accepted by `isValidGBK`; with a
detector that reports `GB-18030` with confidence 95 on them, the verdict
comes back with confidence 95. -/
theorem isValidBig5_implies_isValidGBK_witness :
    isValidGBK [0xA4, 0x40] = true ∧
    ∃ bytes err, DetectAndConvertToUtf8
      { sampleEnv with detectAll := fun _ => ([⟨"GB-18030", "zh", 95⟩], none) }
      [0xA4, 0x40] =
        some (bytes, some ⟨"GB-18030", "zh", 95, sampleNewDecoder SampleEnc.gb18030, true⟩,
          err) :=
  ⟨(isValidBig5_implies_isValidGBK [0xA4, 0x40] (by decide)).1,
   (isValidBig5_implies_isValidGBK [0xA4, 0x40] (by decide)).2.2 SampleEnc
     { sampleEnv with detectAll := fun _ => ([⟨"GB-18030", "zh", 95⟩], none) }
     ⟨"GB-18030", "zh", 95, sampleNewDecoder SampleEnc.gb18030, true⟩ rfl⟩

end Easychars
